import Mathlib

/-!
Verification development for the ConnectFourGuru engine.

The definitions below are a shallow embedding of the TypeScript sources:
`src/lib/constants.ts`, `src/lib/game.ts`, `src/lib/openingBook.ts`,
`src/lib/transpositionTable.ts`, `src/lib/victorRules.ts` and the search
engine `src/lib/ai.ts` (the make/unmake variant that stores a best move in
each transposition entry).  Boards are modelled as total functions from
(row, column) to a cell value; cell values are `0` (empty), `1` (the human
player) and `2` (the engine).  JavaScript numbers that can be `±Infinity`
(alpha, beta, running best scores) are modelled by the three-way type
`XInt`; all genuinely integral quantities are `Int`/`Nat`.  The mutable
search board and the mutable transposition table are threaded explicitly:
a function that mutates state in the source returns the new state here.
-/

-- ---------------------------------------------------------------------------
-- constants.ts
-- ---------------------------------------------------------------------------

def ROWS : Nat := 6
def COLS : Nat := 7

def EMPTY : Nat := 0
def PLAYER : Nat := 1
def AI : Nat := 2

/-- Move order: center-out for maximum alpha-beta pruning efficiency. -/
def MOVE_ORDER : List Nat := [3, 2, 4, 1, 5, 0, 6]

def SCORE_WIN : Int := 100000
def SCORE_THREE : Int := 5
def SCORE_TWO : Int := 2
def SCORE_OPP_THREE : Int := -4
def SCORE_CENTER : Int := 3

inductive Difficulty where
| easy
| medium
| hard
| guru
| victor
deriving DecidableEq

def DEPTH_MAP : Difficulty → Nat
| .easy => 3
| .medium => 5
| .hard => 10
| .guru => 14
| .victor => 14

def VICTOR_CLAIMEVEN_3 : Int := 100
def VICTOR_CLAIMEVEN_2 : Int := 25
def VICTOR_CLAIMEVEN_1 : Int := 8
def VICTOR_BEFORE_3 : Int := 150
def VICTOR_BEFORE_2 : Int := 50
def VICTOR_VERTICAL_3 : Int := 50
def VICTOR_VERTICAL_2 : Int := 20
def VICTOR_AFTEREVEN_3 : Int := 60
def VICTOR_AFTEREVEN_2 : Int := 20
def VICTOR_BASEINVERSE : Int := 40
def VICTOR_LOWINVERSE : Int := 30

-- ---------------------------------------------------------------------------
-- Board model
-- ---------------------------------------------------------------------------

/-- A board is a total function from (row, column) to a cell value.
Rows run 0 (top) to 5 (bottom), columns 0..6, matching `board[row][col]`. -/
def Board : Type := Nat → Nat → Nat

/-- Build a board from a row-major list of rows (out-of-range reads as empty,
which never occurs on the 6 x 7 grid the engine uses). -/
def boardOfRows (rows : List (List Nat)) : Board :=
  fun r c => (rows.getD r []).getD c 0

/-- `next[row][col] = piece` on a copy of the board. -/
def updateCell (b : Board) (row col v : Nat) : Board :=
  fun r c => if r = row ∧ c = col then v else b r c

def emptyBoard : Board := fun _ _ => EMPTY

-- ---------------------------------------------------------------------------
-- game.ts
-- ---------------------------------------------------------------------------

/-- Returns the row index where a piece would land in `col`, or `none` if
full (the source returns the sentinel `-1`).  The source scans rows 5 down
to 0 and returns the first empty one. -/
def getDropRow (b : Board) (col : Nat) : Option Nat :=
  (List.range ROWS).reverse.find? (fun row => b row col == EMPTY)

/-- Returns a new board with `piece` dropped into `col`; does not mutate. -/
def dropPiece (b : Board) (col piece : Nat) : Board :=
  match getDropRow b col with
  | none => b
  | some row => updateCell b row col piece

/-- The four scan directions: horizontal, vertical, diagonal SE, diagonal SW. -/
def directions : List (Int × Int) := [(0, 1), (1, 0), (1, 1), (1, -1)]

/-- Does the cell at integer coordinates (r, c) lie on the board and hold
`piece`?  The source checks the bounds before indexing. -/
def hitCell (b : Board) (piece : Nat) (r c : Int) : Bool :=
  0 ≤ r && r < (ROWS : Int) && 0 ≤ c && c < (COLS : Int) && b r.toNat c.toNat == piece

/-- Length (0..3) of the run of `piece` at offsets 1, 2, 3 from (row, col)
in direction (dr, dc), stopping at the first miss — the inner `k` loop with
its `break`, unrolled. -/
def runLen (b : Board) (piece : Nat) (row col dr dc : Int) : Nat :=
  if hitCell b piece (row + dr) (col + dc) then
    if hitCell b piece (row + 2 * dr) (col + 2 * dc) then
      if hitCell b piece (row + 3 * dr) (col + 3 * dc) then 3 else 2
    else 1
  else 0

structure WinResult where
  winner : Nat
  cells : List (Nat × Nat)
deriving DecidableEq

/-- One direction probe of `checkWin`: the accumulated `cells` list reaches
length 4 exactly when the run from (row, col) extends three more cells. -/
def checkWinAt (b : Board) (row col : Nat) (dr dc : Int) : Option WinResult :=
  let piece := b row col
  if 1 + runLen b piece row col dr dc = 4 then
    some ⟨piece, (List.range 4).map (fun k =>
      (((row : Int) + dr * k).toNat, ((col : Int) + dc * k).toNat))⟩
  else none

/-- Checks all four directions for a 4-in-a-row, scanning cells row-major and
returning the first winner found with its winning cells, or `none`. -/
def checkWin (b : Board) : Option WinResult :=
  ((List.range ROWS).flatMap (fun row => (List.range COLS).map (fun col => (row, col)))).findSome?
    (fun rc =>
      if b rc.1 rc.2 == EMPTY then none
      else directions.findSome? (fun d => checkWinAt b rc.1 rc.2 d.1 d.2))

/-- Returns true if the board is full (draw): no empty cell in the top row. -/
def isDraw (b : Board) : Bool :=
  (List.range COLS).all (fun c => b 0 c != EMPTY)

/-- Returns the list of valid columns (not full). -/
def validCols (b : Board) : List Nat :=
  (List.range COLS).filter (fun c => b 0 c == EMPTY)

-- ---------------------------------------------------------------------------
-- JavaScript numbers restricted to integers and the two infinities
-- ---------------------------------------------------------------------------

/-- The values the search's score/alpha/beta variables take: an integer, or
`-Infinity` / `Infinity` (used as initialisers and root search bounds). -/
inductive XInt where
| negInf
| fin (z : Int)
| posInf
deriving DecidableEq

/-- Unary minus on `XInt` (JavaScript negation on these values). -/
def XInt.neg : XInt → XInt
| negInf => posInf
| fin z => fin (-z)
| posInf => negInf

/-- Boolean `<=` on `XInt`. -/
def XInt.ble : XInt → XInt → Bool
| negInf, _ => true
| fin _, negInf => false
| fin a, fin b => a ≤ b
| fin _, posInf => true
| posInf, posInf => true
| posInf, _ => false

/-- Boolean `<` on `XInt`. -/
def XInt.blt (a b : XInt) : Bool := !(XInt.ble b a)

/-- `Math.max` on `XInt`. -/
def XInt.max (a b : XInt) : XInt := if XInt.ble a b then b else a

/-- `Math.min` on `XInt`. -/
def XInt.min (a b : XInt) : XInt := if XInt.ble a b then a else b

-- ---------------------------------------------------------------------------
-- transpositionTable.ts — Zobrist hashing
-- ---------------------------------------------------------------------------

/-- One step of the 32-bit linear-congruential generator:
`s = (Math.imul(s, 1664525) + 1013904223) >>> 0`.  `Math.imul` computes the
product in 32-bit two's complement and `>>> 0` reinterprets the sum as an
unsigned 32-bit integer, so the net effect is arithmetic modulo 2^32. -/
def lcgStep (s : Nat) : Nat := (s * 1664525 + 1013904223) % 2 ^ 32

/-- The state of the generator seeded with `0xdeadbeef` after `n` calls. -/
def lcgIter : Nat → Nat
| 0 => 0xdeadbeef
| n + 1 => lcgStep (lcgIter n)

/-- `ZOBRIST[row][col][pieceIndex]` (`pieceIndex = piece - 1`): the keys are
drawn from the generator in row-major order, two consecutive values per
cell, so cell (r, c) receives call numbers `2*(r*COLS + c) + 1` and `+ 2`. -/
def ZOBRIST (r c i : Nat) : Nat := lcgIter (2 * (r * COLS + c) + i + 1)

/-- The 42 cell coordinates in the row-major order of the hashing loops. -/
def boardCells : List (Nat × Nat) :=
  (List.range ROWS).flatMap (fun r => (List.range COLS).map (fun c => (r, c)))

/-- Compute the Zobrist hash for a full board from scratch. -/
def computeBoardHash (b : Board) : Nat :=
  boardCells.foldl
    (fun hash rc =>
      if b rc.1 rc.2 != EMPTY then hash ^^^ ZOBRIST rc.1 rc.2 (b rc.1 rc.2 - 1) else hash)
    0

-- ---------------------------------------------------------------------------
-- transpositionTable.ts — the table
-- ---------------------------------------------------------------------------

/-- Alpha-beta bound type stored alongside each TT entry. -/
inductive TTFlag where
| exact
| lower
| upper
deriving DecidableEq

/-- One transposition entry.  The search engine additionally stores the best
move found at the node (`bestMove`, `-1` meaning none), which `negamax`
reads back for move ordering. -/
structure TTEntry where
  depth : Nat
  score : XInt
  flag : TTFlag
  bestMove : Int
deriving DecidableEq

/-- Maximum number of entries before the table is cleared to reclaim memory. -/
def MAX_TT_SIZE : Nat := 500000

/-- The `Map<number, TTEntry>` backing the table, in insertion order. -/
abbrev TranspositionTable : Type := List (Nat × TTEntry)

def TranspositionTable.get (tt : TranspositionTable) (hash : Nat) : Option TTEntry :=
  (List.find? (fun p => p.1 == hash) tt).map (fun p => p.2)

/-- `Map.set` on a key already present: replace that key's value in place. -/
def replaceEntry : TranspositionTable → Nat → TTEntry → TranspositionTable
| [], _, _ => []
| (k, v) :: t, hash, entry =>
    if k == hash then (k, entry) :: t else (k, v) :: replaceEntry t hash entry

def TranspositionTable.size (tt : TranspositionTable) : Nat := tt.length

def TranspositionTable.clear (_tt : TranspositionTable) : TranspositionTable := []

/-- Store an entry, but only overwrite an existing entry if the new search
was at least as deep.  If the table would exceed `MAX_TT_SIZE` with a new
key, it is cleared first to cap memory usage. -/
def TranspositionTable.set (tt : TranspositionTable) (hash : Nat) (entry : TTEntry) :
    TranspositionTable :=
  match TranspositionTable.get tt hash with
  | some existing =>
      if existing.depth ≤ entry.depth then replaceEntry tt hash entry else tt
  | none =>
      if MAX_TT_SIZE ≤ TranspositionTable.size tt
      then TranspositionTable.clear tt ++ [(hash, entry)]
      else tt ++ [(hash, entry)]

-- ---------------------------------------------------------------------------
-- openingBook.ts
-- ---------------------------------------------------------------------------

/-- Encode a board as the flat list of its 42 cell values, row-major — the
join of the cells that the source's `encode` produces as a digit string. -/
def encode (b : Board) : List Nat :=
  (List.range ROWS).flatMap (fun r => (List.range COLS).map (fun c => b r c))

/-- `Map.set` semantics used while seeding the book: replace the value of an
existing key, otherwise append the pair. -/
def assocSet (m : List (List Nat × Nat)) (k : List Nat) (v : Nat) : List (List Nat × Nat) :=
  match m.find? (fun p => p.1 == k) with
  | some _ =>
      m.map (fun p => if p.1 == k then (k, v) else p)
  | none => m ++ [(k, v)]

/-- First seeding loop: best replies to each possible first player move.
The book's private `empty`/`drop` helpers have exactly the semantics of
`emptyBoard`/`dropPiece`, which are reused here. -/
def bookTurn1 (m : List (List Nat × Nat)) : List (List Nat × Nat) :=
  (List.range COLS).foldl
    (fun m playerCol =>
      let b := dropPiece emptyBoard playerCol PLAYER
      let best :=
        if b (ROWS - 1) 3 = EMPTY ∨ b 0 3 = EMPTY then 3
        else if playerCol ≤ 2 then 4
        else 2
      assocSet m (encode b) best)
    m

/-- Second seeding loop: positions after player, centre reply, player. -/
def bookTurn2 (m : List (List Nat × Nat)) : List (List Nat × Nat) :=
  (List.range COLS).foldl
    (fun m p1 =>
      (List.range COLS).foldl
        (fun m p2 =>
          let b0 := dropPiece emptyBoard p1 PLAYER
          let b1 := dropPiece b0 3 AI
          let b := dropPiece b1 p2 PLAYER
          let best :=
            if b 0 3 ≠ EMPTY then
              match [2, 4, 1, 5, 0, 6].find? (fun c => b 0 c == EMPTY) with
              | some c => c
              | none => 3
            else 3
          assocSet m (encode b) best)
        m)
    m

/-- Compact board encoding -> best column for the critical early positions. -/
def BOOK_MAP : List (List Nat × Nat) := bookTurn2 (bookTurn1 [])

/-- Total number of non-empty cells on the board. -/
def totalPieces (b : Board) : Nat :=
  (boardCells.filter (fun rc => b rc.1 rc.2 != EMPTY)).length

/-- Look up the current position in the opening book: only at Guru, only
while at most 6 pieces are on the board; exact book hit first (provided the
stored column is still open), then the centre-first fallback. -/
def getOpeningBookMove (b : Board) (difficulty : Difficulty) : Option Nat :=
  if difficulty ≠ Difficulty.guru then none
  else if 6 < totalPieces b then none
  else
    let fallback := [3, 2, 4, 1, 5, 0, 6].find? (fun col => b 0 col == EMPTY)
    match (BOOK_MAP.find? (fun p => p.1 == encode b)).map (fun p => p.2) with
    | some bookCol => if b 0 bookCol = EMPTY then some bookCol else fallback
    | none => fallback

-- ---------------------------------------------------------------------------
-- victorRules.ts
-- ---------------------------------------------------------------------------

/-- A "group": a potential four-in-a-row still live for one side (source
name `Group`, renamed here because Mathlib already declares `Group`). -/
structure VGroup where
  squares : List (Nat × Nat)
  owner : Nat
  emptySquares : List (Nat × Nat)
  filledCount : Nat
deriving DecidableEq

/-- Allis row numbering is 1-indexed from the bottom; board row `row` is
Allis row `ROWS - row`. -/
def isOddSquare (row : Nat) : Bool := (ROWS - row) % 2 == 1

def isEvenSquare (row : Nat) : Bool := (ROWS - row) % 2 == 0

/-- Determine who moved first by comparing piece counts. -/
def getFirstPlayer (b : Board) : Nat :=
  let playerCount := (boardCells.filter (fun rc => b rc.1 rc.2 == PLAYER)).length
  let aiCount := (boardCells.filter (fun rc => b rc.1 rc.2 == AI)).length
  if aiCount ≤ playerCount then PLAYER else AI

/-- First player controls odd squares, second player controls even squares. -/
def isFavorableParity (row piece firstPlayer : Nat) : Bool :=
  if piece == firstPlayer then isOddSquare row else isEvenSquare row

/-- A square is directly playable if empty and on the bottom row or atop a
filled square. -/
def isPlayable (b : Board) (row col : Nat) : Bool :=
  if b row col != EMPTY then false
  else row == ROWS - 1 || b (row + 1) col != EMPTY

/-- All 69 four-cell lines on the 6 x 7 board, generated row-major with the
source's direction order: horizontal, vertical, diagonal SE, diagonal SW. -/
def ALL_LINES : List (List (Nat × Nat)) :=
  (List.range ROWS).flatMap (fun r =>
    (List.range COLS).flatMap (fun c =>
      (if c + 3 < COLS then [[(r, c), (r, c + 1), (r, c + 2), (r, c + 3)]] else []) ++
      (if r + 3 < ROWS then [[(r, c), (r + 1, c), (r + 2, c), (r + 3, c)]] else []) ++
      (if r + 3 < ROWS ∧ c + 3 < COLS then
        [[(r, c), (r + 1, c + 1), (r + 2, c + 2), (r + 3, c + 3)]] else []) ++
      (if r + 3 < ROWS ∧ 3 ≤ c then
        [[(r, c), (r + 1, c - 1), (r + 2, c - 2), (r + 3, c - 3)]] else [])))

/-- Enumerate all live groups (pieces from at most one player). -/
def enumerateGroups (b : Board) : List VGroup :=
  ALL_LINES.filterMap (fun line =>
    let playerCount := (line.filter (fun sq => b sq.1 sq.2 == PLAYER)).length
    let aiCount := (line.filter (fun sq => b sq.1 sq.2 == AI)).length
    let emptySquares := line.filter (fun sq => b sq.1 sq.2 == EMPTY)
    if 0 < playerCount ∧ 0 < aiCount then none
    else if playerCount = 0 ∧ aiCount = 0 then none
    else
      some { squares := line
             owner := if 0 < playerCount then PLAYER else AI
             emptySquares := emptySquares
             filledCount := if 0 < playerCount then playerCount else aiCount })

/-- Rule 1: Claimeven. -/
def scoreClaimeven (groups : List VGroup) (piece firstPlayer : Nat) : Int :=
  let opp := if piece == AI then PLAYER else AI
  groups.foldl
    (fun score g =>
      if g.emptySquares.length = 0 then score
      else if g.owner = piece then
        if g.emptySquares.all (fun sq => isFavorableParity sq.1 piece firstPlayer) then
          score + (if g.filledCount = 3 then VICTOR_CLAIMEVEN_3
                   else if g.filledCount = 2 then VICTOR_CLAIMEVEN_2
                   else VICTOR_CLAIMEVEN_1)
        else score
      else
        if g.emptySquares.all (fun sq => isFavorableParity sq.1 opp firstPlayer) then
          score - (if g.filledCount = 3 then VICTOR_CLAIMEVEN_3
                   else if g.filledCount = 2 then VICTOR_CLAIMEVEN_2
                   else VICTOR_CLAIMEVEN_1)
        else score)
    0

/-- Rule 2: Baseinverse. -/
def scoreBaseinverse (b : Board) (groups : List VGroup) (piece : Nat) : Int :=
  let opp := if piece == AI then PLAYER else AI
  let playableSquares :=
    (List.range COLS).filterMap (fun c => (getDropRow b c).map (fun r => (r, c)))
  if playableSquares.length < 2 then 0
  else
    groups.foldl
      (fun (score : Int) (g : VGroup) =>
        if g.owner ≠ opp then score
        else if g.filledCount < 2 then score
        else
          let playableEmpties := g.emptySquares.filter (fun sq =>
            playableSquares.any (fun ps => ps.1 == sq.1 && ps.2 == sq.2))
          if 2 ≤ playableEmpties.length then score + VICTOR_BASEINVERSE else score)
      0

/-- Rule 3: Vertical. -/
def scoreVertical (b : Board) (groups : List VGroup) (piece firstPlayer : Nat) : Int :=
  let opp := if piece == AI then PLAYER else AI
  (List.range COLS).foldl
    (fun score c =>
      (List.range (ROWS - 1)).foldl
        (fun score r =>
          if b r c != EMPTY || b (r + 1) c != EMPTY then score
          else if !(isOddSquare r) then score
          else
            let beneficiary := firstPlayer
            groups.foldl
              (fun score g =>
                let hasBoth :=
                  g.squares.any (fun sq => sq.1 == r && sq.2 == c) &&
                  g.squares.any (fun sq => sq.1 == r + 1 && sq.2 == c)
                let score :=
                  if g.owner = opp ∧ g.owner ≠ beneficiary ∧ hasBoth then
                    score + (if g.filledCount = 3 then VICTOR_VERTICAL_3
                             else if g.filledCount = 2 then VICTOR_VERTICAL_2
                             else 0)
                  else score
                if g.owner = piece ∧ piece = beneficiary ∧ hasBoth then
                  score + (if g.filledCount = 3 then VICTOR_VERTICAL_3
                           else if g.filledCount = 2 then VICTOR_VERTICAL_2
                           else 0)
                else score)
              score)
        score)
    0

/-- Lowest (largest row index) square of a nonempty square list, via the
source's `reduce` keeping the earlier square on ties. -/
def lowestSquare (h : Nat × Nat) (t : List (Nat × Nat)) : Nat × Nat :=
  t.foldl (fun best sq => if best.1 < sq.1 then sq else best) h

/-- Rule 4: Before. -/
def scoreBefore (b : Board) (groups : List VGroup) (piece : Nat) : Int :=
  let opp := if piece == AI then PLAYER else AI
  let myGroups := groups.filter (fun g => g.owner == piece && 2 ≤ g.filledCount)
  let oppGroups := groups.filter (fun g => g.owner == opp && 2 ≤ g.filledCount)
  myGroups.foldl
    (fun score mine =>
      match mine.emptySquares with
      | [] => score
      | h :: t =>
        let myLowest := lowestSquare h t
        if !(isPlayable b myLowest.1 myLowest.2) then score
        else
          oppGroups.foldl
            (fun score their =>
              match their.emptySquares with
              | [] => score
              | h2 :: t2 =>
                let theirLowest := lowestSquare h2 t2
                if theirLowest.1 ≤ myLowest.1 then
                  if mine.filledCount = 3 ∧ 2 ≤ their.filledCount then
                    score + VICTOR_BEFORE_3
                  else if mine.filledCount = 2 ∧ 2 ≤ their.filledCount then
                    score + VICTOR_BEFORE_2
                  else score
                else score)
            score)
    0

/-- Rule 5: Aftereven. -/
def scoreAftereven (groups : List VGroup) (piece firstPlayer : Nat) : Int :=
  groups.foldl
    (fun score g =>
      if g.owner ≠ piece then score
      else if g.emptySquares.length = 0 then score
      else if !(g.emptySquares.all (fun sq => isFavorableParity sq.1 piece firstPlayer)) then
        score
      else if !(g.emptySquares.all (fun sq => sq.1 != ROWS - 1)) then score
      else if g.filledCount = 3 then score + VICTOR_AFTEREVEN_3
      else if g.filledCount = 2 then score + VICTOR_AFTEREVEN_2
      else score)
    0

/-- The double loop over qualifying column pairs (i < j) of Lowinverse. -/
def lowinversePairs (groups : List VGroup) (opp : Nat) :
    List (Nat × Nat × Nat) → Int
| [] => 0
| x :: rest =>
    rest.foldl
      (fun (score : Int) y =>
        groups.foldl
          (fun (score : Int) (g : VGroup) =>
            if g.owner ≠ opp then score
            else if g.filledCount < 2 then score
            else if g.emptySquares.any (fun sq => sq.1 == x.2.1 && sq.2 == x.1) &&
                    g.emptySquares.any (fun sq => sq.1 == y.2.1 && sq.2 == y.1) then
              score + VICTOR_LOWINVERSE
            else score)
          score)
      0 + lowinversePairs groups opp rest

/-- Rule 6: Lowinverse.  Each qualifying column is recorded as
(col, lowRow, emptyCount) as in the source. -/
def scoreLowinverse (b : Board) (groups : List VGroup) (piece : Nat) : Int :=
  let opp := if piece == AI then PLAYER else AI
  let columnsWithLowSquare :=
    (List.range COLS).filterMap (fun c =>
      let emptyCount := ((List.range ROWS).filter (fun r => b r c == EMPTY)).length
      match getDropRow b c with
      | some lowRow => if 2 ≤ emptyCount then some (c, lowRow, emptyCount) else none
      | none => none)
  if columnsWithLowSquare.length < 2 then 0
  else lowinversePairs groups opp columnsWithLowSquare

/-- Victor-rules evaluation: sum of the six rule scores. -/
def victorEvaluate (b : Board) (piece : Nat) : Int :=
  let groups := enumerateGroups b
  let firstPlayer := getFirstPlayer b
  scoreClaimeven groups piece firstPlayer +
  scoreBaseinverse b groups piece +
  scoreVertical b groups piece firstPlayer +
  scoreBefore b groups piece +
  scoreAftereven groups piece firstPlayer +
  scoreLowinverse b groups piece

/-- Threat-based root move ordering: score each candidate, then sort by
score descending with a stable sort (the JavaScript `sort` comparator
`b.score - a.score` on a stable sort). -/
def victorMoveOrder (b : Board) (piece : Nat) (cols : List Nat) : List Nat :=
  let firstPlayer := getFirstPlayer b
  let scored := cols.map (fun col =>
    match getDropRow b col with
    | none => (col, XInt.negInf)
    | some row =>
      let centerScore : Int := (3 - (((col : Int) - 3).natAbs : Int)) * 2
      let parityScore : Int := if isFavorableParity row piece firstPlayer then 4 else 0
      let groups := enumerateGroups b
      let opp := if piece == AI then PLAYER else AI
      let threatScore := groups.foldl
        (fun (s : Int) (g : VGroup) =>
          if !(g.emptySquares.any (fun sq => sq.1 == row && sq.2 == col)) then s
          else if g.owner = piece then
            s + (if g.filledCount = 3 then 50 else if g.filledCount = 2 then 8 else 2)
          else if g.owner = opp then
            s + (if g.filledCount = 3 then 40 else if g.filledCount = 2 then 5 else 0)
          else s)
        (0 : Int)
      (col, XInt.fin (centerScore + parityScore + threatScore)))
  (scored.mergeSort (fun a b => XInt.ble b.2 a.2)).map (fun p => p.1)

-- ---------------------------------------------------------------------------
-- ai.ts — fast win detection and evaluation
-- ---------------------------------------------------------------------------

/-- Check if the piece at (row, col) forms a 4-in-a-row, probing only the
four directions radiating from that cell (each direction's two `k` loops
with their `break`s are `runLen` in the positive and negative senses). -/
def checkWinAround (b : Board) (row col : Nat) : Bool :=
  let piece := b row col
  if piece == EMPTY then false
  else directions.any (fun d =>
    4 ≤ 1 + runLen b piece row col d.1 d.2 + runLen b piece row col (-d.1) (-d.2))

/-- Score a 4-cell window from (r, c) in direction (dr, dc).  The counter
classification mirrors the source: a cell counts as `empty` exactly when it
is neither `piece` nor `opp`. -/
def scoreWindowDirect (b : Board) (r c : Nat) (dr dc : Int) (piece : Nat) : Int :=
  let opp := if piece == AI then PLAYER else AI
  let cells := (List.range 4).map (fun k =>
    b ((r : Int) + dr * k).toNat ((c : Int) + dc * k).toNat)
  let mine := (cells.filter (fun cell => cell == piece)).length
  let theirs := (cells.filter (fun cell => cell == opp)).length
  let emptyCnt := (cells.filter (fun cell => cell != piece && cell != opp)).length
  if mine = 4 then SCORE_WIN
  else if mine = 3 ∧ emptyCnt = 1 then SCORE_THREE
  else if mine = 2 ∧ emptyCnt = 2 then SCORE_TWO
  else if theirs = 3 ∧ emptyCnt = 1 then SCORE_OPP_THREE
  else 0

/-- Static evaluation: centre-column bonus plus every horizontal, vertical
and diagonal window (the diagonal SW loop runs columns 3..6). -/
def scoreBoard (b : Board) (piece : Nat) : Int :=
  let center := COLS / 2
  let centerScore : Int :=
    (((List.range ROWS).filter (fun r => b r center == piece)).length : Int) * SCORE_CENTER
  let horiz := (((List.range ROWS).flatMap (fun r =>
    (List.range (COLS - 3)).map (fun c => scoreWindowDirect b r c 0 1 piece)))).sum
  let vert := (((List.range COLS).flatMap (fun c =>
    (List.range (ROWS - 3)).map (fun r => scoreWindowDirect b r c 1 0 piece)))).sum
  let diagSE := (((List.range (ROWS - 3)).flatMap (fun r =>
    (List.range (COLS - 3)).map (fun c => scoreWindowDirect b r c 1 1 piece)))).sum
  let diagSW := (((List.range (ROWS - 3)).flatMap (fun r =>
    ((List.range (COLS - 3)).map (fun c => c + 3)).map
      (fun c => scoreWindowDirect b r c 1 (-1) piece)))).sum
  centerScore + horiz + vert + diagSE + diagSW

-- ---------------------------------------------------------------------------
-- ai.ts — negamax with alpha-beta, transposition table, make/unmake
-- ---------------------------------------------------------------------------

/-- The loop state of one negamax node: running best score and move, the
current alpha, and the threaded table/board; `stop` models the beta-cutoff
`break` (once set, the remaining columns are skipped). -/
structure NodeState where
  best : XInt
  bestMove : Nat
  alpha : XInt
  tt : TranspositionTable
  board : Board
  stop : Bool

/-- One iteration of the negamax move loop: make the move on the board,
search the child through `rec` (the depth-smaller recursive call), unmake
the move on the board the child returns, then update best/alpha and set
`stop` on `alpha >= beta`. -/
def negamaxStep (piece hash : Nat) (beta : XInt)
    (rec : Board → XInt → XInt → Nat → Nat → Nat → TranspositionTable →
      XInt × TranspositionTable × Board)
    (st : NodeState) (col : Nat) : NodeState :=
  if st.stop then st
  else
    match getDropRow st.board col with
    | none => st
    | some row =>
      let b1 := updateCell st.board row col piece
      let newHash := hash ^^^ ZOBRIST row col (piece - 1)
      let r := rec b1 (XInt.neg beta) (XInt.neg st.alpha) newHash row col st.tt
      let val := XInt.neg r.1
      let b2 := updateCell r.2.2 row col EMPTY
      let best1 := if XInt.blt st.best val then val else st.best
      let bm1 := if XInt.blt st.best val then col else st.bestMove
      let alpha1 := if XInt.blt st.alpha best1 then best1 else st.alpha
      { best := best1, bestMove := bm1, alpha := alpha1,
        tt := r.2.1, board := b2, stop := XInt.ble beta alpha1 }

/-- The move-generation / move-loop / store part of a `negamax` node at
remaining depth `d + 1`: candidate columns with the TT best move first, the
draw return on no moves, the fold over the moves (through `child`, the
depth-smaller recursive call already specialised to the opponent), and the
final store of the node's depth/score/flag/best move.  `origAlpha` is the
alpha before any TT bound tightening, as used for the flag; `alpha2`,
`beta2` are the possibly tightened window. -/
def negamaxSearch (b : Board) (piece hash d : Nat) (origAlpha : XInt)
    (tt : TranspositionTable)
    (child : Board → XInt → XInt → Nat → Nat → Nat → TranspositionTable →
      XInt × TranspositionTable × Board)
    (alpha2 beta2 : XInt) (ttBestMove : Int) : XInt × TranspositionTable × Board :=
  let cols : List Nat :=
    (if 0 ≤ ttBestMove ∧ b 0 ttBestMove.toNat = EMPTY then [ttBestMove.toNat] else []) ++
    MOVE_ORDER.filter (fun c => (Int.ofNat c != ttBestMove) && (b 0 c == EMPTY))
  if cols.isEmpty then (XInt.fin 0, tt, b)
  else
    let st0 : NodeState :=
      { best := XInt.negInf, bestMove := cols.headD 0, alpha := alpha2,
        tt := tt, board := b, stop := false }
    let stF := cols.foldl (negamaxStep piece hash beta2 child) st0
    let flag :=
      if XInt.ble stF.best origAlpha then TTFlag.upper
      else if XInt.ble beta2 stF.best then TTFlag.lower
      else TTFlag.exact
    (stF.best,
     TranspositionTable.set stF.tt hash ⟨d + 1, stF.best, flag, (stF.bestMove : Int)⟩,
     stF.board)

/-- Negamax with alpha-beta pruning, transposition table and make/unmake.
Returns the score together with the threaded table and board (the board is
restored to its entry state — the make of every explored move is undone).
Control flow mirrors the source: terminal check on the last move, leaf
evaluation at depth 0, TT probe (exact return, bound tightening, cutoff),
then the move loop of `negamaxSearch`. -/
def negamax (b : Board) (depth : Nat) (alpha beta : XInt) (piece hash : Nat)
    (tt : TranspositionTable) (scoreFn : Board → Nat → Int) (lastRow lastCol : Nat) :
    XInt × TranspositionTable × Board :=
  if checkWinAround b lastRow lastCol then
    (XInt.fin (-(SCORE_WIN * 100 + depth)), tt, b)
  else
    match depth with
    | 0 => (XInt.fin (scoreFn b piece), tt, b)
    | d + 1 =>
      let opp := if piece == AI then PLAYER else AI
      let child := fun b1 a1 b2 h1 lr lc t1 => negamax b1 d a1 b2 opp h1 t1 scoreFn lr lc
      match TranspositionTable.get tt hash with
      | none => negamaxSearch b piece hash d alpha tt child alpha beta (-1)
      | some e =>
        if d + 1 ≤ e.depth then
          match e.flag with
          | TTFlag.exact => (e.score, tt, b)
          | TTFlag.lower =>
            let alpha2 := XInt.max alpha e.score
            if XInt.ble beta alpha2 then (e.score, tt, b)
            else negamaxSearch b piece hash d alpha tt child alpha2 beta e.bestMove
          | TTFlag.upper =>
            let beta2 := XInt.min beta e.score
            if XInt.ble beta2 alpha then (e.score, tt, b)
            else negamaxSearch b piece hash d alpha tt child alpha beta2 e.bestMove
        else negamaxSearch b piece hash d alpha tt child alpha beta e.bestMove

-- ---------------------------------------------------------------------------
-- ai.ts — iterative deepening and move selection
-- ---------------------------------------------------------------------------

/-- `checkWin(next)?.winner === p`. -/
def winnerIs (w : Option WinResult) (p : Nat) : Bool :=
  match w with
  | some r => r.winner == p
  | none => false

/-- The candidate columns `MOVE_ORDER.filter((c) => board[0][c] === EMPTY)`
computed at the top of `getBestMove`. -/
def aiCols (b : Board) : List Nat :=
  MOVE_ORDER.filter (fun c => b 0 c == EMPTY)

/-- The root loop state of one iterative-deepening iteration. -/
structure RootState where
  bestScore : XInt
  currentBestCol : Nat
  board : Board
  tt : TranspositionTable

/-- One root move: make on the search board, full-window negamax for the
opponent, unmake, update the running best. -/
def rootStep (scoreFn : Board → Nat → Int) (startHash depth : Nat)
    (st : RootState) (col : Nat) : RootState :=
  match getDropRow st.board col with
  | none => st
  | some row =>
    let b1 := updateCell st.board row col AI
    let newHash := startHash ^^^ ZOBRIST row col (AI - 1)
    let r := negamax b1 (depth - 1) XInt.negInf XInt.posInf PLAYER newHash st.tt scoreFn row col
    let score := XInt.neg r.1
    let b2 := updateCell r.2.2 row col EMPTY
    if XInt.blt st.bestScore score then
      { bestScore := score, currentBestCol := col, board := b2, tt := r.2.1 }
    else
      { bestScore := st.bestScore, currentBestCol := st.currentBestCol,
        board := b2, tt := r.2.1 }

/-- The iterative-deepening state across depths. -/
structure IDState where
  bestCol : Nat
  prevBestCol : Int
  board : Board
  tt : TranspositionTable

/-- One iterative-deepening iteration at `depth`: reorder the root moves so
the previous iteration's best comes first, then run the root loop. -/
def idStep (scoreFn : Board → Nat → Int) (startHash : Nat) (rootCols : List Nat)
    (st : IDState) (depth : Nat) : IDState :=
  let orderedCols :=
    if 0 ≤ st.prevBestCol then
      st.prevBestCol.toNat :: rootCols.filter (fun c => Int.ofNat c != st.prevBestCol)
    else rootCols
  let r0 : RootState :=
    { bestScore := XInt.negInf, currentBestCol := rootCols.headD 0,
      board := st.board, tt := st.tt }
  let rF := orderedCols.foldl (rootStep scoreFn startHash depth) r0
  { bestCol := rF.currentBestCol, prevBestCol := Int.ofNat rF.currentBestCol,
    board := rF.board, tt := rF.tt }

/-- The iterative-deepening loop of `getBestMove`, depths 1..maxDepth, run
on the mutable copy of the caller's board (modelled by threading the board
through the fold starting from the original). -/
def searchPhase (b : Board) (maxDepth : Nat) (scoreFn : Board → Nat → Int)
    (rootCols : List Nat) (tt : TranspositionTable) : IDState :=
  ((List.range maxDepth).map (fun d => d + 1)).foldl
    (idStep scoreFn (computeBoardHash b) rootCols)
    { bestCol := rootCols.headD 0, prevBestCol := -1, board := b, tt := tt }

/-- If dropping in `bestCol` lets the opponent win by dropping on top of it,
return some alternative column without that problem, else `none`. -/
def avoidGift (b : Board) (bestCol : Nat) (cols : List Nat) : Option Nat :=
  let afterDrop := dropPiece b bestCol AI
  match getDropRow afterDrop bestCol with
  | some _ =>
    let above := dropPiece afterDrop bestCol PLAYER
    if winnerIs (checkWin above) PLAYER then
      cols.find? (fun col =>
        (col != bestCol) &&
        (match getDropRow (dropPiece b col AI) col with
         | none => false
         | some _ =>
           !(winnerIs (checkWin (dropPiece (dropPiece b col AI) col PLAYER)) PLAYER)))
    else none
  | none => none

/-- Returns the column the engine chooses to play, together with the
resulting persistent transposition-table state.  `r1` and `r2` model the
two `Math.random()` draws of the blunder step (both in `[0, 1)`); `tt` is
the module-level table at call time.  Control flow mirrors the source:
immediate win, immediate block, opening book, random blunder (easy only),
iterative-deepening search, gift avoidance for all but easy. -/
def getBestMove (board : Board) (difficulty : Difficulty) (r1 r2 : ℚ)
    (tt : TranspositionTable) : Nat × TranspositionTable :=
  let maxDepth := DEPTH_MAP difficulty
  let cols := aiCols board
  match cols.find? (fun col => winnerIs (checkWin (dropPiece board col AI)) AI) with
  | some col => (col, tt)
  | none =>
  match cols.find? (fun col => winnerIs (checkWin (dropPiece board col PLAYER)) PLAYER) with
  | some col => (col, tt)
  | none =>
  match getOpeningBookMove board difficulty with
  | some bookMove => (bookMove, tt)
  | none =>
    let blunderChance : ℚ := if difficulty = Difficulty.easy then 2/5 else 0
    if 0 < blunderChance ∧ r1 < blunderChance then
      let valid := validCols board
      (valid.getD (⌊r2 * valid.length⌋).toNat 0, tt)
    else
      let scoreFn : Board → Nat → Int :=
        if difficulty = Difficulty.victor then
          fun b p => scoreBoard b p + victorEvaluate b p
        else scoreBoard
      let rootCols :=
        if difficulty = Difficulty.victor then victorMoveOrder board AI cols else cols
      let stF := searchPhase board maxDepth scoreFn rootCols tt
      let bestCol := stF.bestCol
      if difficulty ≠ Difficulty.easy then
        match avoidGift board bestCol rootCols with
        | some safeCol => (safeCol, stF.tt)
        | none => (bestCol, stF.tt)
      else (bestCol, stF.tt)

-- ---------------------------------------------------------------------------
-- Concrete instances and views used by the verification
-- ---------------------------------------------------------------------------

/-- The 84 Zobrist keys in generation order. -/
def zobristKeys : List Nat :=
  (List.range ROWS).flatMap (fun r =>
    (List.range COLS).flatMap (fun c => [ZOBRIST r c 0, ZOBRIST r c 1]))

/-- The per-cell contribution to the board hash (0 for an empty cell). -/
def hashContrib (b : Board) (rc : Nat × Nat) : Nat :=
  if b rc.1 rc.2 = EMPTY then 0 else ZOBRIST rc.1 rc.2 (b rc.1 rc.2 - 1)

/-- A transposition table holding `n` entries under the distinct keys
`0, …, n-1` (used to exercise the capacity bound). -/
def mkTT (n : Nat) : TranspositionTable :=
  (List.range n).map (fun i => (i, ⟨0, XInt.fin 0, TTFlag.exact, -1⟩))

/-- A gravity-respecting, win-free board (19 pieces each side, columns 3
and 5 open, no immediate win or block for either side) on which the
searched move depends on the transposition-table state at call time. -/
def c10Board : Board := boardOfRows
  [[1, 1, 1, 0, 2, 0, 1],
   [2, 2, 2, 0, 2, 2, 2],
   [1, 1, 2, 0, 1, 1, 2],
   [2, 2, 2, 1, 2, 2, 1],
   [1, 1, 1, 2, 1, 1, 1],
   [2, 2, 1, 1, 1, 2, 2]]

/-- The exact contents of the transposition table after
`getBestMove c10Board medium` has run on an empty table (proved below). -/
def c10WarmTT : TranspositionTable :=
  [(1562489552, ⟨4, XInt.fin (-10000002), TTFlag.exact, 3⟩),
   (86863608, ⟨4, XInt.fin (-10000002), TTFlag.exact, 3⟩),
   (2352603740, ⟨3, XInt.fin 10000002, TTFlag.exact, 3⟩),
   (3428452726, ⟨3, XInt.fin 10000002, TTFlag.exact, 5⟩),
   (999636220, ⟨3, XInt.fin 10000002, TTFlag.lower, 3⟩),
   (813692161, ⟨2, XInt.fin 0, TTFlag.lower, 5⟩)]

/-- Table contents after the first search on `c10Board` has completed its
depth-2 iteration on an initially empty table. -/
def c10TT2 : TranspositionTable :=
  [(1562489552, ⟨1, XInt.fin (-7), TTFlag.exact, 3⟩),
   (86863608, ⟨1, XInt.fin (-24), TTFlag.exact, 3⟩)]

/-- Table contents after the depth-3 iteration of the same search. -/
def c10TT3 : TranspositionTable :=
  [(1562489552, ⟨2, XInt.fin (-10000000), TTFlag.exact, 3⟩),
   (86863608, ⟨2, XInt.fin (-10000000), TTFlag.exact, 3⟩),
   (2352603740, ⟨1, XInt.fin 10000000, TTFlag.exact, 3⟩),
   (3428452726, ⟨1, XInt.fin 10000000, TTFlag.exact, 5⟩),
   (999636220, ⟨1, XInt.fin 10000000, TTFlag.lower, 3⟩)]

/-- Table contents after the depth-4 iteration of the same search. -/
def c10TT4 : TranspositionTable :=
  [(1562489552, ⟨3, XInt.fin (-10000001), TTFlag.exact, 3⟩),
   (86863608, ⟨3, XInt.fin (-10000001), TTFlag.exact, 3⟩),
   (2352603740, ⟨2, XInt.fin 10000001, TTFlag.exact, 3⟩),
   (3428452726, ⟨2, XInt.fin 10000001, TTFlag.exact, 5⟩),
   (999636220, ⟨2, XInt.fin 10000001, TTFlag.lower, 3⟩),
   (813692161, ⟨1, XInt.fin (-9), TTFlag.lower, 5⟩)]

/-- A board where the engine has an immediate win in column 3 (three engine
pieces stacked there). -/
def winBoard : Board := dropPiece (dropPiece (dropPiece emptyBoard 3 AI) 3 AI) 3 AI

/-- A board where the player threatens to win in column 3 next turn (three
player pieces stacked there) and the engine has no immediate win. -/
def blockBoard : Board :=
  dropPiece (dropPiece (dropPiece emptyBoard 3 PLAYER) 3 PLAYER) 3 PLAYER

-- ---------------------------------------------------------------------------
-- Helper lemmas
-- ---------------------------------------------------------------------------

/-- Generic invariant preservation along a left fold. -/
theorem foldl_invariant {α σ : Type} (P : σ → Prop) (f : σ → α → σ) :
    ∀ (l : List α) (s : σ), P s → (∀ s' a, a ∈ l → P s' → P (f s' a)) →
      P (l.foldl f s) := by
  intro l
  induction l with
  | nil => intro s hs _; exact hs
  | cons x t ih =>
    intro s hs hstep
    exact ih (f s x) (hstep s x (List.mem_cons_self x t) hs)
      (fun s' a ha => hstep s' a (List.mem_cons_of_mem x ha))

/-- `find?` only depends on the pointwise values of its predicate. -/
theorem find?_congr {α : Type} (p q : α → Bool) :
    ∀ l : List α, (∀ x ∈ l, p x = q x) → l.find? p = l.find? q := by
  intro l
  induction l with
  | nil => intro _; rfl
  | cons x t ih =>
    intro h
    simp only [List.find?_cons]
    rw [h x (List.mem_cons_self x t)]
    cases q x with
    | true => rfl
    | false => exact ih (fun y hy => h y (List.mem_cons_of_mem x hy))

theorem mem_MOVE_ORDER {c : Nat} : c ∈ MOVE_ORDER ↔ c < COLS := by
  constructor
  · intro h
    fin_cases h <;> norm_num [COLS]
  · intro h
    have : c < 7 := h
    interval_cases c <;> simp [MOVE_ORDER]

theorem mem_aiCols {b : Board} {c : Nat} :
    c ∈ aiCols b ↔ c < COLS ∧ b 0 c = EMPTY := by
  simp [aiCols, List.mem_filter, mem_MOVE_ORDER, and_comm]

theorem mem_validCols {b : Board} {c : Nat} :
    c ∈ validCols b ↔ c < COLS ∧ b 0 c = EMPTY := by
  simp [validCols, List.mem_filter, List.mem_range]

theorem aiCols_ne_nil {b : Board} (h : ∃ c, c < COLS ∧ b 0 c = EMPTY) :
    aiCols b ≠ [] := by
  obtain ⟨c, hc, he⟩ := h
  intro hnil
  have : c ∈ aiCols b := mem_aiCols.mpr ⟨hc, he⟩
  rw [hnil] at this
  exact absurd this (List.not_mem_nil c)

theorem headD_mem {l : List Nat} (h : l ≠ []) : l.headD 0 ∈ l := by
  cases l with
  | nil => exact absurd rfl h
  | cons x t => exact List.mem_cons_self x t

/-- The landing row returned by `getDropRow` is on the board and empty. -/
theorem getDropRow_spec {b : Board} {col row : Nat} (h : getDropRow b col = some row) :
    row < ROWS ∧ b row col = EMPTY := by
  have hmem := List.mem_of_find?_eq_some h
  have hp := List.find?_some h
  simp only [List.mem_reverse, List.mem_range] at hmem
  refine ⟨hmem, ?_⟩
  simpa using hp

/-- Undoing a make: writing the old (empty) value back restores the board. -/
theorem updateCell_cancel {b : Board} {row col piece : Nat} (h : b row col = EMPTY) :
    updateCell (updateCell b row col piece) row col EMPTY = b := by
  funext r c
  by_cases hrc : r = row ∧ c = col
  · obtain ⟨hr, hc⟩ := hrc
    subst hr; subst hc
    simp [updateCell, h]
  · simp [updateCell, hrc]

-- ---------------------------------------------------------------------------
-- C7 — distinctness of the Zobrist keys
-- ---------------------------------------------------------------------------

set_option maxRecDepth 4000 in
/-- C7: the 84 Zobrist keys `ZOBRIST[r][c][i]` (0 <= r < 6, 0 <= c < 7,
i in {0, 1}), generated by successive outputs of the 32-bit
linear-congruential generator seeded with 0xdeadbeef, are pairwise
distinct. -/
theorem C7_zobrist_keys_distinct : zobristKeys.Nodup ∧ zobristKeys.length = 84 := by
  constructor
  · decide
  · decide

-- ---------------------------------------------------------------------------
-- C8 — validCols: contents right, order is ascending, not center-out
-- ---------------------------------------------------------------------------

/-- C8 counterexample: on the empty board `validCols` returns the columns in
ascending order `[0, 1, 2, 3, 4, 5, 6]`, not the restriction
`[3, 2, 4, 1, 5, 0, 6]` of the canonical center-out order claimed. -/
theorem C8_counterexample :
    validCols emptyBoard = [0, 1, 2, 3, 4, 5, 6] ∧
    MOVE_ORDER.filter (fun c => emptyBoard 0 c == EMPTY) = [3, 2, 4, 1, 5, 0, 6] ∧
    validCols emptyBoard ≠ MOVE_ORDER.filter (fun c => emptyBoard 0 c == EMPTY) := by
  refine ⟨by decide, by decide, by decide⟩

/-- C8 (amended): `validCols(board)` returns exactly the columns whose top
cell is empty, but in ascending column order (it filters `0..COLS-1`); it
is a permutation of — not equal to — the restriction of the canonical
center-out order `MOVE_ORDER`, which the engine computes separately by
filtering `MOVE_ORDER` itself. -/
theorem C8_validCols_amended (b : Board) :
    (∀ c, c ∈ validCols b ↔ c < COLS ∧ b 0 c = EMPTY) ∧
    (validCols b).Sorted (· < ·) ∧
    (validCols b).Perm (MOVE_ORDER.filter (fun c => b 0 c == EMPTY)) := by
  refine ⟨fun c => mem_validCols, ?_, ?_⟩
  · exact (List.pairwise_lt_range COLS).sublist (List.filter_sublist _)
  · exact List.Perm.filter _ (by decide : (List.range COLS).Perm MOVE_ORDER)

-- ---------------------------------------------------------------------------
-- C9 — the opening book is enabled for Guru but, contrary to the repo's own
-- documentation (ai.ts call-site comment "Guru + Victor", README, VICTOR.md),
-- not for Victor
-- ---------------------------------------------------------------------------

/-- C9: at the failing input — the board after a single player move in
column 0, one piece on the board — the book serves Guru (returning the
centre) but returns `none` for Victor, because the guard checks only
`difficulty !== "guru"`; the repository's own documentation says both top
tiers use the book.  Non-top tiers also get `none`, as the claim states. -/
theorem C9_opening_book_victor_disabled :
    getOpeningBookMove (dropPiece emptyBoard 0 PLAYER) Difficulty.victor = none ∧
    getOpeningBookMove (dropPiece emptyBoard 0 PLAYER) Difficulty.guru = some 3 ∧
    getOpeningBookMove (dropPiece emptyBoard 0 PLAYER) Difficulty.easy = none ∧
    getOpeningBookMove (dropPiece emptyBoard 0 PLAYER) Difficulty.medium = none ∧
    getOpeningBookMove (dropPiece emptyBoard 0 PLAYER) Difficulty.hard = none := by
  refine ⟨rfl, by decide, rfl, rfl, rfl⟩

-- ---------------------------------------------------------------------------
-- Transposition table lemmas and C4, C5
-- ---------------------------------------------------------------------------

theorem find?_replaceEntry_self (h : Nat) (e : TTEntry) :
    ∀ l : TranspositionTable, (∃ x, List.find? (fun p => p.1 == h) l = some x) →
      List.find? (fun p => p.1 == h) (replaceEntry l h e) = some (h, e) := by
  intro l
  induction l with
  | nil => intro ⟨x, hx⟩; simp at hx
  | cons kv t ih =>
    intro hex
    by_cases hk : kv.1 = h
    · simp [replaceEntry, hk]
    · have hkb : (kv.1 == h) = false := beq_false_of_ne hk
      obtain ⟨x, hx⟩ := hex
      simp only [List.find?_cons, hkb] at hx
      have : replaceEntry (kv :: t) h e = kv :: replaceEntry t h e := by
        cases kv with
        | mk k v => simp [replaceEntry, hkb]
      rw [this]
      simp only [List.find?_cons, hkb]
      exact ih ⟨x, hx⟩

theorem find?_replaceEntry_ne (h h' : Nat) (e : TTEntry) (hne : h' ≠ h) :
    ∀ l : TranspositionTable,
      List.find? (fun p => p.1 == h') (replaceEntry l h e) =
      List.find? (fun p => p.1 == h') l := by
  intro l
  induction l with
  | nil => rfl
  | cons kv t ih =>
    cases kv with
    | mk k v =>
      by_cases hk : k = h
      · have hkb : (k == h) = true := beq_iff_eq.mpr hk
        have hkb' : (k == h') = false := beq_false_of_ne (by omega)
        simp [replaceEntry, hkb, List.find?_cons, hkb']
      · have hkb : (k == h) = false := beq_false_of_ne hk
        simp only [replaceEntry, hkb, if_neg, Bool.false_eq_true, not_false_iff,
          List.find?_cons]
        cases hq : (k == h') with
        | true => rfl
        | false => exact ih

theorem length_replaceEntry (h : Nat) (e : TTEntry) :
    ∀ l : TranspositionTable, (replaceEntry l h e).length = l.length := by
  intro l
  induction l with
  | nil => rfl
  | cons kv t ih =>
    cases kv with
    | mk k v =>
      by_cases hk : k = h
      · simp [replaceEntry, beq_iff_eq.mpr hk]
      · simp [replaceEntry, beq_false_of_ne hk, ih]

/-- C4: `set` replaces a stored entry exactly when the stored depth is at
most the new entry's depth (a shallower result never evicts a deeper one,
an equal-or-deeper result always overwrites), and `clear` empties the
table. -/
theorem C4_tt_depth_dominance (tt : TranspositionTable) (hash : Nat)
    (eOld eNew : TTEntry) (hget : TranspositionTable.get tt hash = some eOld) :
    TranspositionTable.get (TranspositionTable.set tt hash eNew) hash =
      some (if eOld.depth ≤ eNew.depth then eNew else eOld) ∧
    TranspositionTable.size (TranspositionTable.clear tt) = 0 := by
  constructor
  · simp only [TranspositionTable.set, hget]
    by_cases hd : eOld.depth ≤ eNew.depth
    · rw [if_pos hd, if_pos hd]
      unfold TranspositionTable.get at hget ⊢
      have hx : ∃ x, List.find? (fun p => p.1 == hash) tt = some x := by
        cases hfind : List.find? (fun p => p.1 == hash) tt with
        | none => rw [hfind] at hget; simp at hget
        | some x => exact ⟨x, rfl⟩
      rw [find?_replaceEntry_self hash eNew tt hx]
      rfl
    · rw [if_neg hd, if_neg hd]
      exact hget
  · rfl

/-- C4 witness: a one-entry table exercising both replacement directions. -/
theorem C4_tt_depth_dominance_witness :
    TranspositionTable.get
      (TranspositionTable.set [(5, ⟨2, XInt.fin 1, TTFlag.exact, -1⟩)] 5
        ⟨3, XInt.fin 9, TTFlag.lower, 4⟩) 5 =
      some (if (2 : Nat) ≤ 3 then ⟨3, XInt.fin 9, TTFlag.lower, 4⟩
            else ⟨2, XInt.fin 1, TTFlag.exact, -1⟩) ∧
    TranspositionTable.size
      (TranspositionTable.clear [(5, ⟨2, XInt.fin 1, TTFlag.exact, -1⟩)]) = 0 :=
  C4_tt_depth_dominance [(5, ⟨2, XInt.fin 1, TTFlag.exact, -1⟩)] 5
    ⟨2, XInt.fin 1, TTFlag.exact, -1⟩ ⟨3, XInt.fin 9, TTFlag.lower, 4⟩ rfl

theorem mkTT_size (n : Nat) : TranspositionTable.size (mkTT n) = n := by
  simp [mkTT, TranspositionTable.size]

theorem mkTT_get_ge {n k : Nat} (h : n ≤ k) : TranspositionTable.get (mkTT n) k = none := by
  unfold TranspositionTable.get
  rw [List.find?_eq_none.mpr]
  · rfl
  · intro p hp
    simp only [mkTT, List.mem_map, List.mem_range] at hp
    obtain ⟨i, hi, rfl⟩ := hp
    simp only [beq_iff_eq]
    omega

/-- C5: `set` on a hash already present never clears the table (the size is
unchanged and every other key keeps its entry, even at capacity); `set` on
an absent hash when the size has reached `MAX_TT_SIZE` clears the whole
table and inserts the single new entry; and the size never exceeds
`MAX_TT_SIZE` if it did not before. -/
theorem C5_tt_capacity (tt : TranspositionTable) (hash : Nat) (entry : TTEntry) :
    (∀ eOld, TranspositionTable.get tt hash = some eOld →
      TranspositionTable.size (TranspositionTable.set tt hash entry) =
        TranspositionTable.size tt ∧
      ∀ h', h' ≠ hash →
        TranspositionTable.get (TranspositionTable.set tt hash entry) h' =
          TranspositionTable.get tt h') ∧
    (TranspositionTable.get tt hash = none →
      MAX_TT_SIZE ≤ TranspositionTable.size tt →
      TranspositionTable.set tt hash entry = [(hash, entry)]) ∧
    (TranspositionTable.size tt ≤ MAX_TT_SIZE →
      TranspositionTable.size (TranspositionTable.set tt hash entry) ≤ MAX_TT_SIZE) := by
  refine ⟨?_, ?_, ?_⟩
  · intro eOld hget
    simp only [TranspositionTable.set, hget]
    by_cases hd : eOld.depth ≤ entry.depth
    · rw [if_pos hd]
      refine ⟨?_, ?_⟩
      · exact length_replaceEntry hash entry tt
      · intro h' hne
        unfold TranspositionTable.get
        rw [find?_replaceEntry_ne hash h' entry hne tt]
    · rw [if_neg hd]
      exact ⟨rfl, fun _ _ => rfl⟩
  · intro hget hcap
    simp only [TranspositionTable.set, hget, if_pos hcap]
    rfl
  · intro hsz
    cases hget : TranspositionTable.get tt hash with
    | some eOld =>
      simp only [TranspositionTable.set, hget]
      by_cases hd : eOld.depth ≤ entry.depth
      · rw [if_pos hd]
        rw [show TranspositionTable.size (replaceEntry tt hash entry) =
          TranspositionTable.size tt from length_replaceEntry hash entry tt]
        exact hsz
      · rw [if_neg hd]; exact hsz
    | none =>
      simp only [TranspositionTable.set, hget]
      by_cases hcap : MAX_TT_SIZE ≤ TranspositionTable.size tt
      · rw [if_pos hcap]
        show (TranspositionTable.clear tt ++ [(hash, entry)]).length ≤ MAX_TT_SIZE
        simp [TranspositionTable.clear, MAX_TT_SIZE]
      · rw [if_neg hcap]
        show (tt ++ [(hash, entry)]).length ≤ MAX_TT_SIZE
        simp only [List.length_append, List.length_cons, List.length_nil]
        have : TranspositionTable.size tt < MAX_TT_SIZE := Nat.lt_of_not_le hcap
        unfold TranspositionTable.size at this
        omega

/-- C5 witness: a full-capacity table rebuilt from a new key, an existing
key replaced at a small table without clearing, and the size bound. -/
theorem C5_tt_capacity_witness :
    (TranspositionTable.size
        (TranspositionTable.set [(5, ⟨2, XInt.fin 1, TTFlag.exact, -1⟩)] 5
          ⟨7, XInt.fin 3, TTFlag.upper, 0⟩) =
      TranspositionTable.size [(5, ⟨2, XInt.fin 1, TTFlag.exact, -1⟩)] ∧
     ∀ h', h' ≠ 5 →
       TranspositionTable.get
         (TranspositionTable.set [(5, ⟨2, XInt.fin 1, TTFlag.exact, -1⟩)] 5
           ⟨7, XInt.fin 3, TTFlag.upper, 0⟩) h' =
       TranspositionTable.get [(5, ⟨2, XInt.fin 1, TTFlag.exact, -1⟩)] h') ∧
    TranspositionTable.set (mkTT MAX_TT_SIZE) MAX_TT_SIZE ⟨7, XInt.fin 3, TTFlag.upper, 0⟩ =
      [(MAX_TT_SIZE, ⟨7, XInt.fin 3, TTFlag.upper, 0⟩)] ∧
    TranspositionTable.size
      (TranspositionTable.set (mkTT MAX_TT_SIZE) MAX_TT_SIZE
        ⟨7, XInt.fin 3, TTFlag.upper, 0⟩) ≤ MAX_TT_SIZE :=
  ⟨(C5_tt_capacity [(5, ⟨2, XInt.fin 1, TTFlag.exact, -1⟩)] 5
      ⟨7, XInt.fin 3, TTFlag.upper, 0⟩).1 ⟨2, XInt.fin 1, TTFlag.exact, -1⟩ rfl,
   (C5_tt_capacity (mkTT MAX_TT_SIZE) MAX_TT_SIZE ⟨7, XInt.fin 3, TTFlag.upper, 0⟩).2.1
     (mkTT_get_ge (Nat.le_refl _)) (by rw [mkTT_size]),
   (C5_tt_capacity (mkTT MAX_TT_SIZE) MAX_TT_SIZE ⟨7, XInt.fin 3, TTFlag.upper, 0⟩).2.2
     (by rw [mkTT_size])⟩

-- ---------------------------------------------------------------------------
-- XOR-fold lemmas and C6
-- ---------------------------------------------------------------------------

theorem xor_cancel_right (h k : Nat) : (h ^^^ k) ^^^ k = h := by
  rw [Nat.xor_assoc, Nat.xor_self, Nat.xor_zero]

theorem xorFold_congr {ι : Type} (f g : ι → Nat) :
    ∀ (l : List ι) (a : Nat), (∀ j ∈ l, g j = f j) →
      l.foldl (fun h j => h ^^^ g j) a = l.foldl (fun h j => h ^^^ f j) a := by
  intro l
  induction l with
  | nil => intro a _; rfl
  | cons x t ih =>
    intro a hc
    simp only [List.foldl_cons]
    rw [hc x (List.mem_cons_self x t)]
    exact ih (a ^^^ f x) (fun j hj => hc j (List.mem_cons_of_mem x hj))

theorem xorFold_init {ι : Type} (f : ι → Nat) :
    ∀ (l : List ι) (a k : Nat),
      l.foldl (fun h j => h ^^^ f j) (a ^^^ k) =
      l.foldl (fun h j => h ^^^ f j) a ^^^ k := by
  intro l
  induction l with
  | nil => intro a k; rfl
  | cons x t ih =>
    intro a k
    simp only [List.foldl_cons]
    rw [show (a ^^^ k) ^^^ f x = (a ^^^ f x) ^^^ k by
      rw [Nat.xor_assoc, Nat.xor_comm k (f x), ← Nat.xor_assoc]]
    exact ih (a ^^^ f x) k

/-- XOR-ing the contributions of two functions that agree everywhere except
at one index `i` (occurring once, where the first contributes nothing)
differs exactly by the second's contribution at `i`. -/
theorem xorFold_update {ι : Type} [DecidableEq ι] (f g : ι → Nat) (i : ι) :
    ∀ l : List ι, l.Nodup → i ∈ l → (∀ j ∈ l, j ≠ i → g j = f j) → f i = 0 →
      ∀ a, l.foldl (fun h j => h ^^^ g j) a = l.foldl (fun h j => h ^^^ f j) a ^^^ g i := by
  intro l
  induction l with
  | nil => intro _ hmem; exact absurd hmem (List.not_mem_nil i)
  | cons x t ih =>
    intro hnd hmem hcong hfi a
    rcases List.mem_cons.mp hmem with hx | ht
    · have hnotin : x ∉ t := (List.nodup_cons.mp hnd).1
      rw [hx] at hfi ⊢
      simp only [List.foldl_cons]
      rw [xorFold_congr f g t (a ^^^ g x)
        (fun j hj => hcong j (List.mem_cons_of_mem x hj)
          (fun hji => hnotin ((hji.trans hx) ▸ hj)))]
      rw [hfi, Nat.xor_zero]
      exact xorFold_init f t a (g x)
    · have hxne : x ≠ i := fun hxi => (List.nodup_cons.mp hnd).1 (hxi ▸ ht)
      simp only [List.foldl_cons]
      rw [hcong x (List.mem_cons_self x t) hxne]
      exact ih (List.nodup_cons.mp hnd).2 ht
        (fun j hj => hcong j (List.mem_cons_of_mem x hj)) hfi (a ^^^ f x)

/-- Two left folds agree when their step functions agree on the list. -/
theorem foldl_ext {α σ : Type} (f g : σ → α → σ) :
    ∀ (l : List α) (a : σ), (∀ s x, x ∈ l → f s x = g s x) →
      l.foldl f a = l.foldl g a := by
  intro l
  induction l with
  | nil => intro a _; rfl
  | cons x t ih =>
    intro a h
    simp only [List.foldl_cons]
    rw [h a x (List.mem_cons_self x t)]
    exact ih (g a x) (fun s y hy => h s y (List.mem_cons_of_mem x hy))

/-- `computeBoardHash` as the XOR-fold of the per-cell contributions. -/
theorem computeBoardHash_eq_contribFold (b : Board) :
    computeBoardHash b = boardCells.foldl (fun h rc => h ^^^ hashContrib b rc) 0 := by
  unfold computeBoardHash
  apply foldl_ext
  intro s rc _
  by_cases hc : b rc.1 rc.2 = EMPTY <;> simp [hashContrib, hc]

/-- Dropping into one column does not change where another column's piece
would land. -/
theorem getDropRow_updateCell_ne {b : Board} {r c1 c2 v : Nat} (h : c1 ≠ c2) :
    getDropRow (updateCell b r c1 v) c2 = getDropRow b c2 := by
  unfold getDropRow
  apply find?_congr
  intro row _
  simp only [updateCell]
  rw [if_neg (fun hrc => h (hrc.2.symm))]

theorem updateCell_comm {b : Board} {r1 c1 v1 r2 c2 v2 : Nat} (h : c1 ≠ c2) :
    updateCell (updateCell b r1 c1 v1) r2 c2 v2 =
    updateCell (updateCell b r2 c2 v2) r1 c1 v1 := by
  funext r c
  simp only [updateCell]
  split_ifs <;> try rfl
  all_goals exfalso
  all_goals omega

/-- Drops into different columns commute on the resulting board. -/
theorem dropPiece_comm {b : Board} {c1 c2 p1 p2 : Nat} (h : c1 ≠ c2) :
    dropPiece (dropPiece b c1 p1) c2 p2 = dropPiece (dropPiece b c2 p2) c1 p1 := by
  unfold dropPiece
  cases h1 : getDropRow b c1 with
  | none =>
    cases h2 : getDropRow b c2 with
    | none => simp [h1, h2]
    | some r2 =>
      simp only [h1, h2]
      rw [getDropRow_updateCell_ne (fun hc => h hc.symm), h1]
  | some r1 =>
    cases h2 : getDropRow b c2 with
    | none =>
      simp only [h1, h2]
      rw [getDropRow_updateCell_ne h, h2]
    | some r2 =>
      simp only [h1, h2]
      rw [getDropRow_updateCell_ne h, getDropRow_updateCell_ne (fun hc => h hc.symm), h1, h2]
      exact updateCell_comm h

theorem mem_boardCells {r c : Nat} (hr : r < ROWS) (hc : c < COLS) :
    (r, c) ∈ boardCells := by
  simp only [boardCells, List.mem_flatMap, List.mem_map, List.mem_range]
  exact ⟨r, hr, c, hc, rfl⟩

theorem boardCells_nodup : boardCells.Nodup := by decide

/-- C6: the Zobrist hash is self-inverse and order-independent.  Re-XOR-ing
any key cancels; a legal drop of piece `p` into column `c` landing at row
`row` changes the full rehash by exactly `ZOBRIST row c (p-1)` (the
incremental update used in the search agrees with full rehashing); and two
drops into two different columns give the same final hash in either
order. -/
theorem C6_zobrist_hash_algebra :
    (∀ (h r c i : Nat), (h ^^^ ZOBRIST r c i) ^^^ ZOBRIST r c i = h) ∧
    (∀ (b : Board) (c p row : Nat), p = PLAYER ∨ p = AI → c < COLS →
      getDropRow b c = some row →
      computeBoardHash (dropPiece b c p) = computeBoardHash b ^^^ ZOBRIST row c (p - 1)) ∧
    (∀ (b : Board) (c1 c2 p1 p2 : Nat), c1 ≠ c2 →
      computeBoardHash (dropPiece (dropPiece b c1 p1) c2 p2) =
      computeBoardHash (dropPiece (dropPiece b c2 p2) c1 p1)) := by
  refine ⟨fun h r c i => xor_cancel_right h _, ?_, ?_⟩
  · intro b c p row hp hc hdrop
    obtain ⟨hrow, hcell⟩ := getDropRow_spec hdrop
    have hdp : dropPiece b c p = updateCell b row c p := by
      unfold dropPiece; rw [hdrop]
    rw [hdp, computeBoardHash_eq_contribFold, computeBoardHash_eq_contribFold]
    have hpne : p ≠ EMPTY := by rcases hp with h1 | h1 <;> simp [h1, PLAYER, AI, EMPTY]
    have hgi : hashContrib (updateCell b row c p) (row, c) = ZOBRIST row c (p - 1) := by
      simp [hashContrib, updateCell, hpne]
    rw [← hgi]
    apply xorFold_update (hashContrib b) (hashContrib (updateCell b row c p)) (row, c)
      boardCells boardCells_nodup (mem_boardCells hrow hc)
    · intro j _ hji
      have hcellj : updateCell b row c p j.1 j.2 = b j.1 j.2 := by
        simp only [updateCell]
        rw [if_neg (fun hrc => hji (Prod.ext_iff.mpr ⟨hrc.1, hrc.2⟩))]
      simp only [hashContrib, hcellj]
    · simp [hashContrib, hcell]
  · intro b c1 c2 p1 p2 hne
    rw [dropPiece_comm hne]

/-- C6 witness: the incremental update and commutation checked on the empty
board, and self-inversion at key (0,0,0). -/
theorem C6_zobrist_hash_algebra_witness :
    ((0 ^^^ ZOBRIST 0 0 0) ^^^ ZOBRIST 0 0 0 = 0) ∧
    computeBoardHash (dropPiece emptyBoard 3 AI) =
      computeBoardHash emptyBoard ^^^ ZOBRIST 5 3 (AI - 1) ∧
    computeBoardHash (dropPiece (dropPiece emptyBoard 2 PLAYER) 3 AI) =
      computeBoardHash (dropPiece (dropPiece emptyBoard 3 AI) 2 PLAYER) :=
  ⟨C6_zobrist_hash_algebra.1 0 0 0 0,
   C6_zobrist_hash_algebra.2.1 emptyBoard 3 AI 5 (Or.inr rfl) (by decide) (by decide),
   C6_zobrist_hash_algebra.2.2 emptyBoard 2 3 PLAYER AI (by decide)⟩

-- ---------------------------------------------------------------------------
-- C2 — immediate wins are taken and immediate opponent wins are blocked
-- ---------------------------------------------------------------------------

/-- C2: at every tier and for every table/randomness state, if some legal
column completes a four-in-a-row for the engine (as detected by the game's
own `checkWin` on the dropped board), `getBestMove` returns such a winning
column; and if no legal column wins but some legal column would complete a
four-in-a-row for the opponent were the opponent to play it, `getBestMove`
returns such a blocking column. -/
theorem C2_win_block (b : Board) (t : Difficulty) (r1 r2 : ℚ) (tt : TranspositionTable) :
    ((∃ c ∈ aiCols b, winnerIs (checkWin (dropPiece b c AI)) AI = true) →
      (getBestMove b t r1 r2 tt).1 ∈ aiCols b ∧
      winnerIs (checkWin (dropPiece b (getBestMove b t r1 r2 tt).1 AI)) AI = true) ∧
    ((∀ c ∈ aiCols b, winnerIs (checkWin (dropPiece b c AI)) AI = false) →
      (∃ c ∈ aiCols b, winnerIs (checkWin (dropPiece b c PLAYER)) PLAYER = true) →
      (getBestMove b t r1 r2 tt).1 ∈ aiCols b ∧
      winnerIs (checkWin (dropPiece b (getBestMove b t r1 r2 tt).1 PLAYER)) PLAYER = true) := by
  constructor
  · intro hex
    have hsome :
        ((aiCols b).find? (fun col => winnerIs (checkWin (dropPiece b col AI)) AI)).isSome :=
      List.find?_isSome.mpr (by
        obtain ⟨c, hc, hp⟩ := hex
        exact ⟨c, hc, hp⟩)
    obtain ⟨col, hcol⟩ := Option.isSome_iff_exists.mp hsome
    have hgbm : getBestMove b t r1 r2 tt = (col, tt) := by
      simp only [getBestMove]
      rw [hcol]
    rw [hgbm]
    refine ⟨List.mem_of_find?_eq_some hcol, ?_⟩
    simpa using List.find?_some hcol
  · intro hall hex
    have hnone :
        (aiCols b).find? (fun col => winnerIs (checkWin (dropPiece b col AI)) AI) = none :=
      List.find?_eq_none.mpr (fun c hc => by simp [hall c hc])
    have hsome :
        ((aiCols b).find?
          (fun col => winnerIs (checkWin (dropPiece b col PLAYER)) PLAYER)).isSome :=
      List.find?_isSome.mpr (by
        obtain ⟨c, hc, hp⟩ := hex
        exact ⟨c, hc, hp⟩)
    obtain ⟨col, hcol⟩ := Option.isSome_iff_exists.mp hsome
    have hgbm : getBestMove b t r1 r2 tt = (col, tt) := by
      simp only [getBestMove]
      rw [hnone, hcol]
    rw [hgbm]
    refine ⟨List.mem_of_find?_eq_some hcol, ?_⟩
    simpa using List.find?_some hcol

/-- C2 witness: on a board with three engine pieces stacked in column 3 the
winning column 3 is returned; on a board with three player pieces stacked
in column 3 (and no engine win) the blocking column 3 is returned, both at
the weakest tier. -/
theorem C2_win_block_witness :
    ((getBestMove winBoard Difficulty.easy 0 0 []).1 ∈ aiCols winBoard ∧
     winnerIs (checkWin (dropPiece winBoard (getBestMove winBoard Difficulty.easy 0 0 []).1 AI))
       AI = true) ∧
    ((getBestMove blockBoard Difficulty.easy 0 0 []).1 ∈ aiCols blockBoard ∧
     winnerIs
       (checkWin (dropPiece blockBoard (getBestMove blockBoard Difficulty.easy 0 0 []).1 PLAYER))
       PLAYER = true) :=
  ⟨(C2_win_block winBoard Difficulty.easy 0 0 []).1 ⟨3, by decide, by decide⟩,
   (C2_win_block blockBoard Difficulty.easy 0 0 []).2 (by decide) ⟨3, by decide, by decide⟩⟩

-- ---------------------------------------------------------------------------
-- C10 — repeatability across transposition-table states
-- ---------------------------------------------------------------------------

/-- C10 (amended): `getBestMove` is a deterministic function of board, tier,
random draws and table state, and the returned column is independent of the
transposition-table state whenever the move is decided before the search
phase — by an immediate win, an immediate block, or an opening-book hit.
For searched moves the column can depend on the table contents populated by
earlier calls (see the counterexample). -/
theorem C10_shortcut_tt_independent (b : Board) (t : Difficulty) (r1 r2 : ℚ)
    (tt1 tt2 : TranspositionTable)
    (h : (∃ c ∈ aiCols b, winnerIs (checkWin (dropPiece b c AI)) AI = true) ∨
         (∃ c ∈ aiCols b, winnerIs (checkWin (dropPiece b c PLAYER)) PLAYER = true) ∨
         (∃ m, getOpeningBookMove b t = some m)) :
    (getBestMove b t r1 r2 tt1).1 = (getBestMove b t r1 r2 tt2).1 := by
  cases hf1 : (aiCols b).find? (fun col => winnerIs (checkWin (dropPiece b col AI)) AI) with
  | some col =>
    simp only [getBestMove, hf1]
  | none =>
    cases hf2 :
        (aiCols b).find? (fun col => winnerIs (checkWin (dropPiece b col PLAYER)) PLAYER) with
    | some col =>
      simp only [getBestMove, hf1, hf2]
    | none =>
      cases hb : getOpeningBookMove b t with
      | some m =>
        simp only [getBestMove, hf1, hf2, hb]
      | none =>
        exfalso
        rcases h with ⟨c, hc, hp⟩ | ⟨c, hc, hp⟩ | ⟨m, hm⟩
        · exact absurd hp (by simpa using List.find?_eq_none.mp hf1 c hc)
        · exact absurd hp (by simpa using List.find?_eq_none.mp hf2 c hc)
        · rw [hb] at hm; exact Option.noConfusion hm

/-- C10 amended-claim witness: with an immediate win on the board, an empty
table and a populated table give the same column. -/
theorem C10_shortcut_tt_independent_witness :
    (getBestMove winBoard Difficulty.medium 1 0 []).1 =
    (getBestMove winBoard Difficulty.medium 1 0
      [(999, ⟨4, XInt.fin 7, TTFlag.exact, 3⟩)]).1 :=
  C10_shortcut_tt_independent winBoard Difficulty.medium 1 0 []
    [(999, ⟨4, XInt.fin 7, TTFlag.exact, 3⟩)]
    (Or.inl ⟨3, by decide, by decide⟩)

-- ---------------------------------------------------------------------------
-- C3 — the search restores its board: every make is undone
-- ---------------------------------------------------------------------------

theorem negamaxStep_board (piece hash : Nat) (beta : XInt)
    (child : Board → XInt → XInt → Nat → Nat → Nat → TranspositionTable →
      XInt × TranspositionTable × Board)
    (hchild : ∀ b a bb h lr lc t, (child b a bb h lr lc t).2.2 = b)
    (st : NodeState) (col : Nat) :
    (negamaxStep piece hash beta child st col).board = st.board := by
  unfold negamaxStep
  by_cases hs : st.stop
  · simp [hs]
  · simp only [hs, Bool.false_eq_true, if_neg, not_false_iff]
    cases hrow : getDropRow st.board col with
    | none => rfl
    | some row =>
      simp only []
      rw [hchild]
      exact updateCell_cancel (getDropRow_spec hrow).2

theorem negamaxSearch_board (b : Board) (piece hash d : Nat) (origAlpha : XInt)
    (tt : TranspositionTable)
    (child : Board → XInt → XInt → Nat → Nat → Nat → TranspositionTable →
      XInt × TranspositionTable × Board)
    (hchild : ∀ b1 a bb h lr lc t, (child b1 a bb h lr lc t).2.2 = b1)
    (alpha2 beta2 : XInt) (ttBestMove : Int) :
    (negamaxSearch b piece hash d origAlpha tt child alpha2 beta2 ttBestMove).2.2 = b := by
  unfold negamaxSearch
  set cols : List Nat :=
    (if 0 ≤ ttBestMove ∧ b 0 ttBestMove.toNat = EMPTY then [ttBestMove.toNat] else []) ++
    MOVE_ORDER.filter (fun c => (Int.ofNat c != ttBestMove) && (b 0 c == EMPTY)) with hcols
  by_cases he : cols.isEmpty
  · simp [he]
  · simp only [he, Bool.false_eq_true, if_neg, not_false_iff]
    apply foldl_invariant (fun st => st.board = b) (negamaxStep piece hash beta2 child)
    · rfl
    · exact fun s a _ hP => (negamaxStep_board piece hash beta2 child hchild s a).trans hP

theorem negamax_board :
    ∀ (depth : Nat) (b : Board) (alpha beta : XInt) (piece hash : Nat)
      (tt : TranspositionTable) (scoreFn : Board → Nat → Int) (lr lc : Nat),
      (negamax b depth alpha beta piece hash tt scoreFn lr lc).2.2 = b := by
  intro depth
  induction depth with
  | zero =>
    intro b alpha beta piece hash tt scoreFn lr lc
    unfold negamax
    by_cases hw : checkWinAround b lr lc <;> simp [hw]
  | succ d ih =>
    intro b alpha beta piece hash tt scoreFn lr lc
    unfold negamax
    by_cases hw : checkWinAround b lr lc
    · simp [hw]
    · simp only [hw, Bool.false_eq_true, if_neg, not_false_iff]
      have hchild : ∀ b1 a bb h lr1 lc1 t,
          (negamax b1 d a bb (if piece == AI then PLAYER else AI) h t scoreFn lr1 lc1).2.2 = b1 :=
        fun b1 a bb h lr1 lc1 t => ih b1 a bb _ h t scoreFn lr1 lc1
      cases hget : TranspositionTable.get tt hash with
      | none =>
        exact negamaxSearch_board b piece hash d alpha tt _ hchild alpha beta (-1)
      | some e =>
        by_cases hd : d + 1 ≤ e.depth
        · simp only [hd, if_pos]
          cases e.flag with
          | exact => rfl
          | lower =>
            by_cases hcut : XInt.ble beta (XInt.max alpha e.score)
            · simp [hcut]
            · simp only [hcut, Bool.false_eq_true, if_neg, not_false_iff]
              exact negamaxSearch_board b piece hash d alpha tt _ hchild _ beta e.bestMove
          | upper =>
            by_cases hcut : XInt.ble (XInt.min beta e.score) alpha
            · simp [hcut]
            · simp only [hcut, Bool.false_eq_true, if_neg, not_false_iff]
              exact negamaxSearch_board b piece hash d alpha tt _ hchild alpha _ e.bestMove
        · simp only [hd, if_neg]
          exact negamaxSearch_board b piece hash d alpha tt _ hchild alpha beta e.bestMove

theorem rootStep_board (scoreFn : Board → Nat → Int) (startHash depth : Nat)
    (st : RootState) (col : Nat) :
    (rootStep scoreFn startHash depth st col).board = st.board := by
  unfold rootStep
  cases hrow : getDropRow st.board col with
  | none => rfl
  | some row =>
    simp only []
    rw [negamax_board]
    by_cases hlt : XInt.blt st.bestScore
        (XInt.neg (negamax (updateCell st.board row col AI) (depth - 1) XInt.negInf XInt.posInf
          PLAYER (startHash ^^^ ZOBRIST row col (AI - 1)) st.tt scoreFn row col).1) <;>
      simp [hlt, updateCell_cancel (getDropRow_spec hrow).2]

theorem idStep_board (scoreFn : Board → Nat → Int) (startHash : Nat) (rootCols : List Nat)
    (st : IDState) (depth : Nat) :
    (idStep scoreFn startHash rootCols st depth).board = st.board := by
  unfold idStep
  apply foldl_invariant (fun r => r.board = st.board) (rootStep scoreFn startHash depth)
  · rfl
  · exact fun s a _ hP => (rootStep_board scoreFn startHash depth s a).trans hP

theorem searchPhase_board (b : Board) (maxDepth : Nat) (scoreFn : Board → Nat → Int)
    (rootCols : List Nat) (tt : TranspositionTable) :
    (searchPhase b maxDepth scoreFn rootCols tt).board = b := by
  unfold searchPhase
  apply foldl_invariant (fun st => st.board = b) (idStep scoreFn (computeBoardHash b) rootCols)
  · rfl
  · exact fun s a _ hP => (idStep_board scoreFn (computeBoardHash b) rootCols s a).trans hP

/-- C3: the search mutates only its working copy and always restores it —
`negamax` returns the very board it was handed (every make is undone by the
matching unmake, including on a beta-cutoff exit, modelled by the threaded
board), and the whole iterative-deepening phase hands back the board it
started from, so `getBestMove` never returns a mutated board to its
caller. -/
theorem C3_search_restores_board :
    (∀ (b : Board) (depth : Nat) (alpha beta : XInt) (piece hash : Nat)
      (tt : TranspositionTable) (scoreFn : Board → Nat → Int) (lastRow lastCol : Nat),
      (negamax b depth alpha beta piece hash tt scoreFn lastRow lastCol).2.2 = b) ∧
    (∀ (b : Board) (maxDepth : Nat) (scoreFn : Board → Nat → Int)
      (rootCols : List Nat) (tt : TranspositionTable),
      (searchPhase b maxDepth scoreFn rootCols tt).board = b) :=
  ⟨fun b depth alpha beta piece hash tt scoreFn lr lc =>
    negamax_board depth b alpha beta piece hash tt scoreFn lr lc,
   fun b maxDepth scoreFn rootCols tt => searchPhase_board b maxDepth scoreFn rootCols tt⟩

-- ---------------------------------------------------------------------------
-- C1 — getBestMove always returns a legal column
-- ---------------------------------------------------------------------------

set_option maxRecDepth 8000 in
theorem BOOK_MAP_vals_lt : ∀ p ∈ BOOK_MAP, p.2 < COLS := by decide

theorem fallback_legal {b : Board} {c : Nat}
    (h : [3, 2, 4, 1, 5, 0, 6].find? (fun col => b 0 col == EMPTY) = some c) :
    c < COLS ∧ b 0 c = EMPTY := by
  have hmem := List.mem_of_find?_eq_some h
  have hp := List.find?_some h
  refine ⟨?_, by simpa using hp⟩
  fin_cases hmem <;> norm_num [COLS]

theorem book_legal {b : Board} {d : Difficulty} {c : Nat}
    (h : getOpeningBookMove b d = some c) : c < COLS ∧ b 0 c = EMPTY := by
  unfold getOpeningBookMove at h
  by_cases hd : d ≠ Difficulty.guru
  · rw [if_pos hd] at h; exact absurd h (Option.noConfusion)
  · rw [if_neg hd] at h
    by_cases hn : 6 < totalPieces b
    · rw [if_pos hn] at h; exact absurd h (Option.noConfusion)
    · rw [if_neg hn] at h
      simp only [] at h
      cases hfind : (List.find? (fun p => p.1 == encode b) BOOK_MAP).map (fun p => p.2) with
      | some bookCol =>
        simp only [hfind] at h
        by_cases hbc : b 0 bookCol = EMPTY
        · rw [if_pos hbc] at h
          cases h
          refine ⟨?_, hbc⟩
          obtain ⟨p, hp, hp2⟩ := Option.map_eq_some'.mp hfind
          have := BOOK_MAP_vals_lt p (List.mem_of_find?_eq_some hp)
          omega
        · rw [if_neg hbc] at h
          exact fallback_legal h
      | none =>
        simp only [hfind] at h
        exact fallback_legal h

theorem validCols_ne_nil {b : Board} (h : ∃ c, c < COLS ∧ b 0 c = EMPTY) :
    validCols b ≠ [] := by
  obtain ⟨c, hc, he⟩ := h
  intro hnil
  have : c ∈ validCols b := mem_validCols.mpr ⟨hc, he⟩
  rw [hnil] at this
  exact absurd this (List.not_mem_nil c)

theorem blunder_index_lt {n : Nat} (hn : 0 < n) {r : ℚ} (h0 : 0 ≤ r) (h1 : r < 1) :
    (⌊r * n⌋).toNat < n := by
  have hnq : (0 : ℚ) < n := by exact_mod_cast hn
  have hlt : r * n < n := by
    calc r * n < 1 * n := by exact mul_lt_mul_of_pos_right h1 hnq
    _ = n := one_mul _
  have hfl : ⌊r * (n : ℚ)⌋ < (n : ℤ) := Int.floor_lt.mpr (by exact_mod_cast hlt)
  have hge : (0 : ℤ) ≤ ⌊r * (n : ℚ)⌋ := Int.floor_nonneg.mpr (mul_nonneg h0 (le_of_lt hnq))
  omega

theorem getD_mem_of_lt {l : List Nat} {i : Nat} (h : i < l.length) : l.getD i 0 ∈ l := by
  rw [List.getD_eq_getElem l 0 h]
  exact List.getElem_mem h

theorem map_fst_eq_self {f : Nat → Nat × XInt} (hf : ∀ c, (f c).1 = c) :
    ∀ l : List Nat, (l.map f).map (fun p => p.1) = l := by
  intro l
  induction l with
  | nil => rfl
  | cons x t ih => simp [hf x, ih]

theorem victorMoveOrder_perm (b : Board) (piece : Nat) (cols : List Nat) :
    (victorMoveOrder b piece cols).Perm cols := by
  unfold victorMoveOrder
  refine ((List.mergeSort_perm _ _).map (fun p : Nat × XInt => p.1)).trans ?_
  rw [map_fst_eq_self (fun c => by cases h : getDropRow b c <;> simp [h]) cols]

theorem rootStep_currentBestCol_mem {rootCols orderedCols : List Nat}
    (scoreFn : Board → Nat → Int) (startHash depth : Nat)
    (hsub : ∀ c ∈ orderedCols, c ∈ rootCols) (st : RootState) (col : Nat)
    (hcol : col ∈ orderedCols) (hst : st.currentBestCol ∈ rootCols) :
    (rootStep scoreFn startHash depth st col).currentBestCol ∈ rootCols := by
  unfold rootStep
  cases hrow : getDropRow st.board col with
  | none => exact hst
  | some row =>
    simp only []
    by_cases hlt : XInt.blt st.bestScore
        (XInt.neg (negamax (updateCell st.board row col AI) (depth - 1) XInt.negInf XInt.posInf
          PLAYER (startHash ^^^ ZOBRIST row col (AI - 1)) st.tt scoreFn row col).1)
    · simp only [hlt, if_pos]
      exact hsub col hcol
    · simp only [hlt, Bool.false_eq_true, if_neg, not_false_iff]
      exact hst

theorem idStep_bestCol_mem (scoreFn : Board → Nat → Int) (startHash : Nat)
    {rootCols : List Nat} (hroot : rootCols ≠ []) (st : IDState)
    (hprev : st.prevBestCol < 0 ∨ st.prevBestCol.toNat ∈ rootCols) (depth : Nat) :
    (idStep scoreFn startHash rootCols st depth).bestCol ∈ rootCols := by
  unfold idStep
  simp only []
  have hsub : ∀ c ∈ (if 0 ≤ st.prevBestCol then
      st.prevBestCol.toNat :: rootCols.filter (fun c => Int.ofNat c != st.prevBestCol)
      else rootCols), c ∈ rootCols := by
    intro c hc
    by_cases hp : 0 ≤ st.prevBestCol
    · rw [if_pos hp] at hc
      rcases List.mem_cons.mp hc with hh | ht
      · rcases hprev with hneg | hmem
        · omega
        · exact hh ▸ hmem
      · exact List.mem_of_mem_filter ht
    · rw [if_neg hp] at hc
      exact hc
  apply foldl_invariant (fun r : RootState => r.currentBestCol ∈ rootCols)
  · exact headD_mem hroot
  · exact fun s a ha hP =>
      rootStep_currentBestCol_mem scoreFn startHash depth hsub s a ha hP

theorem searchPhase_bestCol_mem (b : Board) (maxDepth : Nat)
    (scoreFn : Board → Nat → Int) {rootCols : List Nat} (hroot : rootCols ≠ [])
    (tt : TranspositionTable) :
    (searchPhase b maxDepth scoreFn rootCols tt).bestCol ∈ rootCols := by
  unfold searchPhase
  have := foldl_invariant
    (fun st : IDState => st.bestCol ∈ rootCols ∧
      (st.prevBestCol < 0 ∨ st.prevBestCol.toNat ∈ rootCols))
    (idStep scoreFn (computeBoardHash b) rootCols)
    ((List.range maxDepth).map (fun d => d + 1))
    { bestCol := rootCols.headD 0, prevBestCol := -1, board := b, tt := tt }
    ⟨headD_mem hroot, Or.inl (by norm_num)⟩
    (fun s a _ hP => by
      refine ⟨idStep_bestCol_mem scoreFn (computeBoardHash b) hroot s hP.2 a, Or.inr ?_⟩
      show (Int.ofNat (idStep scoreFn (computeBoardHash b) rootCols s a).bestCol).toNat ∈ rootCols
      simpa using idStep_bestCol_mem scoreFn (computeBoardHash b) hroot s hP.2 a)
  exact this.1

theorem avoidGift_mem {b : Board} {bestCol : Nat} {cols : List Nat} {c : Nat}
    (h : avoidGift b bestCol cols = some c) : c ∈ cols := by
  cases hrow : getDropRow (dropPiece b bestCol AI) bestCol with
  | none =>
    simp only [avoidGift, hrow] at h
    exact absurd h (Option.noConfusion)
  | some row =>
    simp only [avoidGift, hrow] at h
    by_cases hwin :
        winnerIs (checkWin (dropPiece (dropPiece b bestCol AI) bestCol PLAYER)) PLAYER = true
    · rw [if_pos hwin] at h
      exact List.mem_of_find?_eq_some h
    · rw [if_neg hwin] at h
      exact absurd h (Option.noConfusion)

theorem giftPhase_mem (b : Board) (t : Difficulty) (sf : Board → Nat → Int)
    {rc : List Nat} (tt : TranspositionTable) (hrne : rc ≠ [])
    (hsub : ∀ c ∈ rc, c ∈ aiCols b) :
    (if t ≠ Difficulty.easy then
       match avoidGift b (searchPhase b (DEPTH_MAP t) sf rc tt).bestCol rc with
       | some safeCol => (safeCol, (searchPhase b (DEPTH_MAP t) sf rc tt).tt)
       | none => ((searchPhase b (DEPTH_MAP t) sf rc tt).bestCol,
                  (searchPhase b (DEPTH_MAP t) sf rc tt).tt)
     else ((searchPhase b (DEPTH_MAP t) sf rc tt).bestCol,
           (searchPhase b (DEPTH_MAP t) sf rc tt).tt)).1 ∈ aiCols b := by
  by_cases he : t ≠ Difficulty.easy
  · rw [if_pos he]
    cases hag : avoidGift b (searchPhase b (DEPTH_MAP t) sf rc tt).bestCol rc with
    | some safeCol =>
      simp only [hag]
      exact hsub _ (avoidGift_mem hag)
    | none =>
      simp only [hag]
      exact hsub _ (searchPhase_bestCol_mem b _ sf hrne tt)
  · rw [if_neg he]
    exact hsub _ (searchPhase_bestCol_mem b _ sf hrne tt)

/-- C1: for every board with at least one open column, every tier, every
table state and every pair of random draws from `[0, 1)`, `getBestMove`
returns a column index below `COLS` whose top cell is empty — a legal move
on the given board. -/
theorem C1_getBestMove_legal (b : Board) (t : Difficulty) (r1 r2 : ℚ)
    (tt : TranspositionTable) (hopen : ∃ c, c < COLS ∧ b 0 c = EMPTY)
    (hr0 : 0 ≤ r2) (hr1 : r2 < 1) :
    (getBestMove b t r1 r2 tt).1 < COLS ∧ b 0 (getBestMove b t r1 r2 tt).1 = EMPTY := by
  cases hf1 : (aiCols b).find? (fun col => winnerIs (checkWin (dropPiece b col AI)) AI) with
  | some col =>
    have hgbm : getBestMove b t r1 r2 tt = (col, tt) := by
      simp only [getBestMove]; rw [hf1]
    rw [hgbm]
    exact mem_aiCols.mp (List.mem_of_find?_eq_some hf1)
  | none =>
  cases hf2 :
      (aiCols b).find? (fun col => winnerIs (checkWin (dropPiece b col PLAYER)) PLAYER) with
  | some col =>
    have hgbm : getBestMove b t r1 r2 tt = (col, tt) := by
      simp only [getBestMove]; rw [hf1, hf2]
    rw [hgbm]
    exact mem_aiCols.mp (List.mem_of_find?_eq_some hf2)
  | none =>
  cases hbook : getOpeningBookMove b t with
  | some m =>
    have hgbm : getBestMove b t r1 r2 tt = (m, tt) := by
      simp only [getBestMove]; rw [hf1, hf2, hbook]
    rw [hgbm]
    exact book_legal hbook
  | none =>
  by_cases hbl : 0 < (if t = Difficulty.easy then (2/5 : ℚ) else 0) ∧
      r1 < (if t = Difficulty.easy then (2/5 : ℚ) else 0)
  · have hvne : validCols b ≠ [] := validCols_ne_nil hopen
    have hlen : 0 < (validCols b).length := List.length_pos.mpr hvne
    have hidx := blunder_index_lt hlen hr0 hr1
    have hgbm : getBestMove b t r1 r2 tt =
        ((validCols b).getD (⌊r2 * ((validCols b).length : ℚ)⌋).toNat 0, tt) := by
      simp only [getBestMove]
      rw [hf1, hf2, hbook, if_pos hbl]
    rw [hgbm]
    exact mem_validCols.mp (getD_mem_of_lt hidx)
  · have hcne : aiCols b ≠ [] := aiCols_ne_nil hopen
    have hsub : ∀ c ∈ (if t = Difficulty.victor then victorMoveOrder b AI (aiCols b)
        else aiCols b), c ∈ aiCols b := by
      intro c hc
      by_cases hv : t = Difficulty.victor
      · rw [if_pos hv] at hc
        exact (victorMoveOrder_perm b AI (aiCols b)).mem_iff.mp hc
      · rw [if_neg hv] at hc
        exact hc
    have hrne : (if t = Difficulty.victor then victorMoveOrder b AI (aiCols b)
        else aiCols b) ≠ [] := by
      by_cases hv : t = Difficulty.victor
      · rw [if_pos hv]
        intro hn
        have hl := (victorMoveOrder_perm b AI (aiCols b)).length_eq
        rw [hn] at hl
        exact hcne (List.length_eq_zero.mp hl.symm)
      · rw [if_neg hv]
        exact hcne
    have hres := giftPhase_mem b t
      (if t = Difficulty.victor then (fun bb p => scoreBoard bb p + victorEvaluate bb p)
       else scoreBoard) tt hrne hsub
    have hgoal := mem_aiCols.mp hres
    simp only [getBestMove]
    rw [hf1, hf2, hbook, if_neg hbl]
    exact hgoal

/-- C1 witness: a legal (winning) column is returned on a concrete board at
a concrete tier with concrete random draws. -/
theorem C1_getBestMove_legal_witness :
    (getBestMove winBoard Difficulty.guru 0 0 []).1 < COLS ∧
    winBoard 0 (getBestMove winBoard Difficulty.guru 0 0 []).1 = EMPTY :=
  C1_getBestMove_legal winBoard Difficulty.guru 0 0 []
    ⟨3, by norm_num [COLS], by decide⟩ (by norm_num) (by norm_num)

-- ---------------------------------------------------------------------------
-- C10 — counterexample: the searched move depends on the table state
-- ---------------------------------------------------------------------------

theorem idStep_eq_of (scoreFn : Board → Nat → Int) (h : Nat) (rc : List Nat)
    (st : IDState) (d : Nat) (a : Nat) (p : Int) (t : TranspositionTable)
    (h1 : (idStep scoreFn h rc st d).bestCol = a)
    (h2 : (idStep scoreFn h rc st d).prevBestCol = p)
    (h4 : (idStep scoreFn h rc st d).tt = t) :
    idStep scoreFn h rc st d = ⟨a, p, st.board, t⟩ := by
  have hb := idStep_board scoreFn h rc st d
  calc idStep scoreFn h rc st d
      = ⟨(idStep scoreFn h rc st d).bestCol, (idStep scoreFn h rc st d).prevBestCol,
         (idStep scoreFn h rc st d).board, (idStep scoreFn h rc st d).tt⟩ := rfl
    _ = ⟨a, p, st.board, t⟩ := by rw [h1, h2, h4, hb]

theorem c10Hash : computeBoardHash c10Board = 1135009123 := by decide

theorem c10F1 :
    idStep scoreBoard 1135009123 [3, 5] ⟨3, -1, c10Board, []⟩ 1 =
      ⟨3, 3, c10Board, []⟩ :=
  idStep_eq_of scoreBoard 1135009123 [3, 5] ⟨3, -1, c10Board, []⟩ 1 3 3 []
    (by decide) (by decide) (by decide)

theorem c10F2 :
    idStep scoreBoard 1135009123 [3, 5] ⟨3, 3, c10Board, []⟩ 2 =
      ⟨5, 5, c10Board, c10TT2⟩ :=
  idStep_eq_of scoreBoard 1135009123 [3, 5] ⟨3, 3, c10Board, []⟩ 2 5 5 c10TT2
    (by decide) (by decide) (by decide)

theorem c10F3 :
    idStep scoreBoard 1135009123 [3, 5] ⟨5, 5, c10Board, c10TT2⟩ 3 =
      ⟨5, 5, c10Board, c10TT3⟩ :=
  idStep_eq_of scoreBoard 1135009123 [3, 5] ⟨5, 5, c10Board, c10TT2⟩ 3 5 5 c10TT3
    (by decide) (by decide) (by decide)

theorem c10F4 :
    idStep scoreBoard 1135009123 [3, 5] ⟨5, 5, c10Board, c10TT3⟩ 4 =
      ⟨5, 5, c10Board, c10TT4⟩ :=
  idStep_eq_of scoreBoard 1135009123 [3, 5] ⟨5, 5, c10Board, c10TT3⟩ 4 5 5 c10TT4
    (by decide) (by decide) (by decide)

theorem c10F5 :
    idStep scoreBoard 1135009123 [3, 5] ⟨5, 5, c10Board, c10TT4⟩ 5 =
      ⟨5, 5, c10Board, c10WarmTT⟩ :=
  idStep_eq_of scoreBoard 1135009123 [3, 5] ⟨5, 5, c10Board, c10TT4⟩ 5 5 5 c10WarmTT
    (by decide) (by decide) (by decide)

theorem c10W1 :
    idStep scoreBoard 1135009123 [3, 5] ⟨3, -1, c10Board, c10WarmTT⟩ 1 =
      ⟨3, 3, c10Board, c10WarmTT⟩ :=
  idStep_eq_of scoreBoard 1135009123 [3, 5] ⟨3, -1, c10Board, c10WarmTT⟩ 1 3 3 c10WarmTT
    (by decide) (by decide) (by decide)

theorem c10W2 :
    idStep scoreBoard 1135009123 [3, 5] ⟨3, 3, c10Board, c10WarmTT⟩ 2 =
      ⟨3, 3, c10Board, c10WarmTT⟩ :=
  idStep_eq_of scoreBoard 1135009123 [3, 5] ⟨3, 3, c10Board, c10WarmTT⟩ 2 3 3 c10WarmTT
    (by decide) (by decide) (by decide)

theorem c10W3 :
    idStep scoreBoard 1135009123 [3, 5] ⟨3, 3, c10Board, c10WarmTT⟩ 3 =
      ⟨3, 3, c10Board, c10WarmTT⟩ :=
  idStep_eq_of scoreBoard 1135009123 [3, 5] ⟨3, 3, c10Board, c10WarmTT⟩ 3 3 3 c10WarmTT
    (by decide) (by decide) (by decide)

theorem c10W4 :
    idStep scoreBoard 1135009123 [3, 5] ⟨3, 3, c10Board, c10WarmTT⟩ 4 =
      ⟨3, 3, c10Board, c10WarmTT⟩ :=
  idStep_eq_of scoreBoard 1135009123 [3, 5] ⟨3, 3, c10Board, c10WarmTT⟩ 4 3 3 c10WarmTT
    (by decide) (by decide) (by decide)

theorem c10W5 :
    idStep scoreBoard 1135009123 [3, 5] ⟨3, 3, c10Board, c10WarmTT⟩ 5 =
      ⟨3, 3, c10Board, c10WarmTT⟩ :=
  idStep_eq_of scoreBoard 1135009123 [3, 5] ⟨3, 3, c10Board, c10WarmTT⟩ 5 3 3 c10WarmTT
    (by decide) (by decide) (by decide)

theorem c10SearchFresh :
    searchPhase c10Board 5 scoreBoard [3, 5] [] = ⟨5, 5, c10Board, c10WarmTT⟩ := by
  show List.foldl (idStep scoreBoard (computeBoardHash c10Board) [3, 5])
    ⟨3, -1, c10Board, []⟩ [1, 2, 3, 4, 5] = ⟨5, 5, c10Board, c10WarmTT⟩
  rw [c10Hash]
  simp only [List.foldl_cons, List.foldl_nil]
  rw [c10F1, c10F2, c10F3, c10F4, c10F5]

theorem c10SearchWarm :
    searchPhase c10Board 5 scoreBoard [3, 5] c10WarmTT = ⟨3, 3, c10Board, c10WarmTT⟩ := by
  show List.foldl (idStep scoreBoard (computeBoardHash c10Board) [3, 5])
    ⟨3, -1, c10Board, c10WarmTT⟩ [1, 2, 3, 4, 5] = ⟨3, 3, c10Board, c10WarmTT⟩
  rw [c10Hash]
  simp only [List.foldl_cons, List.foldl_nil]
  rw [c10W1, c10W2, c10W3, c10W4, c10W5]

theorem c10NoWin :
    (aiCols c10Board).find?
      (fun col => winnerIs (checkWin (dropPiece c10Board col AI)) AI) = none := by
  decide

theorem c10NoBlock :
    (aiCols c10Board).find?
      (fun col => winnerIs (checkWin (dropPiece c10Board col PLAYER)) PLAYER) = none := by
  decide

theorem c10NoBook : getOpeningBookMove c10Board Difficulty.medium = none := rfl

theorem c10GiftFive : avoidGift c10Board 5 [3, 5] = none := by decide

theorem c10GiftThree : avoidGift c10Board 3 [3, 5] = none := by decide

theorem c10CallFresh : getBestMove c10Board Difficulty.medium 1 0 [] = (5, c10WarmTT) := by
  have hbl : ¬(0 < (if Difficulty.medium = Difficulty.easy then (2/5 : ℚ) else 0) ∧
      (1 : ℚ) < (if Difficulty.medium = Difficulty.easy then (2/5 : ℚ) else 0)) := by decide
  have hsf : (if Difficulty.medium = Difficulty.victor then
      (fun bb p => scoreBoard bb p + victorEvaluate bb p) else scoreBoard) = scoreBoard := rfl
  have hrc : (if Difficulty.medium = Difficulty.victor then
      victorMoveOrder c10Board AI (aiCols c10Board) else aiCols c10Board) =
      aiCols c10Board := rfl
  have hd : DEPTH_MAP Difficulty.medium = 5 := rfl
  have hcols : aiCols c10Board = [3, 5] := by decide
  simp only [getBestMove]
  rw [c10NoWin, c10NoBlock, c10NoBook, if_neg hbl,
    if_pos (show Difficulty.medium ≠ Difficulty.easy from by decide), hsf, hrc, hd, hcols]
  simp only [c10SearchFresh]
  rw [c10GiftFive]

theorem c10CallWarm :
    getBestMove c10Board Difficulty.medium 1 0 c10WarmTT = (3, c10WarmTT) := by
  have hbl : ¬(0 < (if Difficulty.medium = Difficulty.easy then (2/5 : ℚ) else 0) ∧
      (1 : ℚ) < (if Difficulty.medium = Difficulty.easy then (2/5 : ℚ) else 0)) := by decide
  have hsf : (if Difficulty.medium = Difficulty.victor then
      (fun bb p => scoreBoard bb p + victorEvaluate bb p) else scoreBoard) = scoreBoard := rfl
  have hrc : (if Difficulty.medium = Difficulty.victor then
      victorMoveOrder c10Board AI (aiCols c10Board) else aiCols c10Board) =
      aiCols c10Board := rfl
  have hd : DEPTH_MAP Difficulty.medium = 5 := rfl
  have hcols : aiCols c10Board = [3, 5] := by decide
  simp only [getBestMove]
  rw [c10NoWin, c10NoBlock, c10NoBook, if_neg hbl,
    if_pos (show Difficulty.medium ≠ Difficulty.easy from by decide), hsf, hrc, hd, hcols]
  simp only [c10SearchWarm]
  rw [c10GiftThree]

/-- C10 counterexample: on `c10Board` at tier medium with fixed random draws,
a call on an empty transposition table returns column 5 and leaves the table
in state `c10WarmTT`; an immediately repeated call — now seeing that table —
returns column 3.  Two successive identical calls thus pick different
columns, refuting table-state independence of the searched move. -/
theorem C10_counterexample :
    (getBestMove c10Board Difficulty.medium 1 0 []).1 = 5 ∧
    (getBestMove c10Board Difficulty.medium 1 0 []).2 = c10WarmTT ∧
    (getBestMove c10Board Difficulty.medium 1 0 c10WarmTT).1 = 3 :=
  ⟨by rw [c10CallFresh], by rw [c10CallFresh], by rw [c10CallWarm]⟩
